import Mathlib

/-!
Verification of the DeleGate plan-synthesis core: worker registry,
intent analysis, plan synthesis and the plan validator, embedded
shallowly from `src/delegate/{models,registry,planner}.py`.

Python-specific conventions of the embedding:
* Python `str` is Lean `String`; `.lower()` maps `Char.toLower` over the
  characters; `in` on strings is contiguous-substring search; `.split()`
  splits on whitespace and drops empty fragments.
* Python `dict` (insertion ordered) is an association list.
* `datetime` values are abstract `Nat` instants.
* `float` scores are modelled as `ℚ`; every score produced by the code is
  a small dyadic/decimal constant, and only order comparisons matter.
* Python truthiness is embedded explicitly where the code relies on it
  (`or` on `Optional[TrustTier]` and on `Optional[str]`).
* `raise ValueError` is `Except.error`.
-/

/-- Python `str.lower()` (per-character lowering). -/
def pyLower (s : String) : String := String.mk (s.toList.map Char.toLower)

/-- Decides whether `pre` is a prefix of `l`. -/
def listStartsWith : List Char → List Char → Bool
  | [], _ => true
  | _ :: _, [] => false
  | a :: as, b :: bs => a == b && listStartsWith as bs

/-- Python `needle in hay` on strings: contiguous substring occurrence. -/
def strSubstrAux (needle : List Char) : List Char → Bool
  | [] => listStartsWith needle []
  | c :: cs => listStartsWith needle (c :: cs) || strSubstrAux needle cs

/-- Python `needle in hay` on strings. -/
def strSubstr (needle hay : String) : Bool :=
  strSubstrAux needle.toList hay.toList

/-- Accumulator-style tokenizer behind `pyWords`; `cur` holds the current
word reversed. -/
def pyWordsAux (cur : List Char) : List Char → List String
  | [] => if cur.isEmpty then [] else [String.mk cur.reverse]
  | c :: cs =>
    if c.isWhitespace then
      if cur.isEmpty then pyWordsAux [] cs
      else String.mk cur.reverse :: pyWordsAux [] cs
    else pyWordsAux (c :: cur) cs

/-- Python `str.split()` with no argument: split on whitespace runs and
drop empty fragments. -/
def pyWords (s : String) : List String := pyWordsAux [] s.toList

/-- Python truthiness of an `Optional[str]`: `None` and `""` are falsy. -/
def pyStrFalsy : Option String → Bool
  | none => true
  | some s => s == ""

example : pyLower "Hello World" = "hello world" := by decide
example : strSubstr "lo w" "hello world" = true := by decide
example : strSubstr "low" "hello world" = false := by decide
example : strSubstr "" "abc" = true := by decide
example : pyWords "  a bc  d " = ["a", "bc", "d"] := by decide

/-!  ## Data model (`models.py`)  -/

/-- Trust tiers per models.py (`IntEnum`, increasing trust). -/
inductive TrustTier
  | untrusted
  | sandbox
  | verified
  | trusted
deriving DecidableEq, Repr

/-- Numeric value of a tier (the `IntEnum` value). -/
def TrustTier.val : TrustTier → Nat
  | .untrusted => 0
  | .sandbox => 1
  | .verified => 2
  | .trusted => 3

instance : LE TrustTier := ⟨fun a b => a.val ≤ b.val⟩
instance : LT TrustTier := ⟨fun a b => a.val < b.val⟩

instance (a b : TrustTier) : Decidable (a ≤ b) :=
  inferInstanceAs (Decidable (a.val ≤ b.val))

instance (a b : TrustTier) : Decidable (a < b) :=
  inferInstanceAs (Decidable (a.val < b.val))

/-- Worker verification status. -/
inductive VerificationStatus
  | pass
  | fail
  | unknown
deriving DecidableEq, Repr

/-- Worker availability status. -/
inductive WorkerAvailability
  | ready
  | degraded
  | maintenance
  | offline
deriving DecidableEq, Repr

/-- Plan scope classification. -/
inductive PlanScope
  | single_task
  | workflow
  | campaign
deriving DecidableEq, Repr

/-- Reasons for escalation. -/
inductive EscalationReason
  | ambiguous_intent
  | no_capable_workers
  | trust_violation
  | policy_violation
  | constraint_conflict
  | resource_unavailable
  | other
deriving DecidableEq, Repr

/-- String value of an escalation reason (Python `Enum.value`). -/
def EscalationReason.value : EscalationReason → String
  | .ambiguous_intent => "ambiguous_intent"
  | .no_capable_workers => "no_capable_workers"
  | .trust_violation => "trust_violation"
  | .policy_violation => "policy_violation"
  | .constraint_conflict => "constraint_conflict"
  | .resource_unavailable => "resource_unavailable"
  | .other => "other"

/-- Types of wait conditions. -/
inductive WaitConditionType
  | task_completion
  | receipt_phase
deriving DecidableEq, Repr

/-- Trust information for a worker. -/
structure TrustInfo where
  declared_tier : TrustTier
  verified_tier : Option TrustTier := none
  verification_status : VerificationStatus := .unknown
  signature : Option String := none
  verified_at : Option Nat := none
  verified_by : Option String := none
deriving DecidableEq, Repr

/-- Trust requirements for a plan. -/
structure TrustPolicy where
  minimum_worker_tier : TrustTier := .verified
  require_signatures : Bool := false
  allow_cross_department : Bool := true
deriving DecidableEq, Repr

/-- A capability (tool) exposed by a worker.  The free-form JSON schema
fields and performance hints of the source are not consulted by any code
under verification and are omitted. -/
structure WorkerCapability where
  tool_name : String
  description : String
  semantic_tags : List String := []
deriving DecidableEq, Repr

/-- Current availability status of a worker. -/
structure WorkerAvailabilityInfo where
  status : WorkerAvailability := .ready
  current_load : ℚ := 0
  max_concurrent : Nat := 10
deriving DecidableEq, Repr

/-- Worker manifest provided for registration. -/
structure WorkerManifest where
  worker_id : String
  worker_name : String
  version : String := "1.0.0"
  trust : TrustInfo
  capabilities : List WorkerCapability := []
  availability : WorkerAvailabilityInfo := {}
  constraints : List String := []
  registered_at : Option Nat := none
  last_seen : Option Nat := none
deriving DecidableEq, Repr

/-- Result from worker search/match operations. -/
structure WorkerSearchResult where
  worker_id : String
  worker_name : String
  relevance_score : ℚ
  matched_capabilities : List String
  trust : TrustInfo
  availability : WorkerAvailabilityInfo
deriving DecidableEq, Repr

/-- The `Settings` fields consulted by the code under verification. -/
structure Settings where
  allow_untrusted_workers : Bool := false
  require_signatures_production : Bool := false
  max_plan_steps : Nat := 20
  instance_id : String := "delegate-1"
deriving DecidableEq, Repr

/-- Python `manifest.trust.verified_tier or manifest.trust.declared_tier`.
`or` falls back to `declared_tier` both when `verified_tier` is `None`
and when it is `UNTRUSTED`, because the `IntEnum` value 0 is falsy. -/
def pyEffectiveTier (t : TrustInfo) : TrustTier :=
  match t.verified_tier with
  | none => t.declared_tier
  | some v => if v = .untrusted then t.declared_tier else v

/-!  ## Plan step and plan models (`models.py`)  -/

/-- Five step types per models.py. -/
inductive StepType
  | call_worker
  | queue_execution
  | wait_for
  | aggregate
  | escalate
deriving DecidableEq, Repr

/-- A Python JSON-ish value, covering exactly the shapes the planner
stores in `parameters` / `context` dictionaries. -/
inductive PyVal
  | s (v : String)
  | n (v : Nat)
  | dict (v : List (String × PyVal))
  | arr (v : List PyVal)

/-- Condition for a `wait_for` step. -/
structure WaitCondition where
  type : WaitConditionType
  task_id : Option String := none
  acceptable_phases : List String := ["complete", "escalate"]
deriving DecidableEq, Repr

/-- A single step in a delegation plan: the source models all five kinds
as one record with optional fields plus a constructor-time validator
(`mkPlanStep` below). -/
structure PlanStep where
  step_id : String
  step_type : StepType
  depends_on : List String := []
  timeout_seconds : Option Nat := none
  worker_id : Option String := none
  tool_name : Option String := none
  parameters : List (String × PyVal) := []
  priority : String := "normal"
  output_binding : Option String := none
  trust : Option TrustInfo := none
  wait_conditions : List WaitCondition := []
  inputs : List String := []
  aggregation_instruction : Option String := none
  reason : Option EscalationReason := none
  message : Option String := none
  context : List (String × PyVal) := []
  suggested_options : List String := []

/-- Constructor-time validation of a step
(`PlanStep.validate_step_type_requirements`).  Python `not x` on the
optional string fields is falsy for both `None` and `""`; on the list
fields it is emptiness; `EscalationReason` members are always truthy. -/
def mkPlanStep (s : PlanStep) : Except String PlanStep :=
  match s.step_type with
  | .call_worker =>
    if pyStrFalsy s.worker_id || pyStrFalsy s.tool_name then
      .error "call_worker requires worker_id and tool_name"
    else .ok s
  | .queue_execution =>
    if pyStrFalsy s.worker_id || pyStrFalsy s.tool_name then
      .error "queue_execution requires worker_id and tool_name"
    else .ok s
  | .wait_for =>
    if s.wait_conditions.isEmpty then
      .error "wait_for requires at least one wait_condition"
    else .ok s
  | .aggregate =>
    if s.inputs.isEmpty then
      .error "aggregate requires at least one input reference"
    else .ok s
  | .escalate =>
    if s.reason.isNone || pyStrFalsy s.message then
      .error "escalate requires reason and message"
    else .ok s

/-- Plan metadata section. -/
structure PlanMetadata where
  plan_schema_version : String := "DG-PLAN-0001"
  plan_id : String
  delegate_id : String := "delegate-1"
  created_at : Nat := 0
  intent_summary : String
  scope : PlanScope := .single_task
  confidence : ℚ := 8/10
  estimated_cost_units : Option Nat := none
  assumptions : List String := []
  trust_policy : TrustPolicy := {}

/-- Reference to external data. -/
structure PlanReference where
  type : String
  id : Option String := none
  observation_id : Option Nat := none
  task_id : Option String := none
  step_id : Option String := none
  relevance : Option String := none
  description : Option String := none
deriving DecidableEq, Repr

/-- References section of a plan. -/
structure PlanReferences where
  input_sources : List PlanReference := []
  expected_outputs : List PlanReference := []
deriving DecidableEq, Repr

/-- A validated plan; values of this type exist only through `mkPlan`. -/
structure Plan where
  metadata : PlanMetadata
  steps : List PlanStep
  references : PlanReferences

/-!  ## The cycle check (`Plan._is_dag`, Kahn's algorithm)  -/

/-- Identifier list of a step list, in order. -/
def stepIds (steps : List PlanStep) : List String := steps.map (fun s => s.step_id)

/-- In-degree table: for every step and every entry of its `depends_on`,
the step's own id is incremented (`in_degree[step.step_id] += 1`).
The Python dict keyed by the step ids is embedded as a total function
that is zero outside the step ids. -/
def buildIndeg (steps : List PlanStep) : String → Int :=
  steps.foldl
    (fun f s =>
      s.depends_on.foldl
        (fun g _d => fun z => if z = s.step_id then g z + 1 else g z) f)
    (fun _ => 0)

/-- Adjacency table: `graph[dep_id].append(step.step_id)` for every
dependency entry, embedded as a total function that is `[]` outside the
step ids (the source's dict lookup would fail there, but `_is_dag` is
only ever invoked after the dependency-reference check). -/
def buildGraph (steps : List PlanStep) : String → List String :=
  steps.foldl
    (fun f s =>
      s.depends_on.foldl
        (fun g d => fun z => if z = d then g z ++ [s.step_id] else g z) f)
    (fun _ => [])

/-- One dequeue of Kahn's algorithm: decrement every neighbor of `node`
in sequence, appending a neighbor to the queue when its in-degree
reaches exactly zero. -/
def kahnStep (graph : String → List String) (node : String)
    (indeg : String → Int) (queue : List String) :
    (String → Int) × List String :=
  (graph node).foldl
    (fun p nbr =>
      let d := p.1 nbr - 1
      ((fun z => if z = nbr then d else p.1 z),
       if d = 0 then p.2 ++ [nbr] else p.2))
    (indeg, queue)

/-- The `while queue:` loop of `_is_dag`, returning the number of
processed nodes.  The fuel argument bounds the number of dequeues; under
the validator's preconditions at most `steps.length` dequeues occur, so
fuel `steps.length` reproduces the source's unbounded loop exactly. -/
def kahnLoop (graph : String → List String) :
    Nat → List String → (String → Int) → Nat → Nat
  | 0, _, _, processed => processed
  | _ + 1, [], _, processed => processed
  | fuel + 1, node :: queue, indeg, processed =>
    let p := kahnStep graph node indeg queue
    kahnLoop graph fuel p.2 p.1 (processed + 1)

/-- `Plan._is_dag`: Kahn's algorithm accepts iff every step is
processed. -/
def isDag (steps : List PlanStep) : Bool :=
  let indeg0 := buildIndeg steps
  let graph := buildGraph steps
  let queue0 := (stepIds steps).filter (fun x => indeg0 x == 0)
  kahnLoop graph steps.length queue0 indeg0 0 == steps.length

/-!  ## Plan construction (`Plan.validate_plan_invariants`)  -/

/-- Dependency-reference existence: every `depends_on` id is a step id. -/
def depsResolve (steps : List PlanStep) : Bool :=
  steps.all (fun s => s.depends_on.all (fun d => (stepIds steps).contains d))

/-- Trust-policy satisfiability as the source checks it: only a step
whose trust snapshot is present (`if step.trust` — model instances are
always truthy, so presence is non-`None`) with a non-`None`
`verified_tier` is compared against the minimum tier. -/
def trustSatisfied (minTier : TrustTier) (steps : List PlanStep) : Bool :=
  steps.all (fun s =>
    match s.trust with
    | none => true
    | some t =>
      match t.verified_tier with
      | none => true
      | some v => !(decide (v < minTier)))

/-- Plan construction.  The model validator runs on every construction,
so a `Plan` value exists iff `mkPlan` returns `Except.ok`.  The
uniqueness test embeds Python's `len(step_ids) != len(set(step_ids))`
as `Nodup`. -/
def mkPlan (metadata : PlanMetadata) (steps : List PlanStep)
    (references : PlanReferences) : Except String Plan :=
  if metadata.plan_schema_version != "DG-PLAN-0001" then
    .error ("Unsupported schema version: " ++ metadata.plan_schema_version)
  else if !(decide (stepIds steps).Nodup) then
    .error "Step IDs must be unique within plan"
  else if !(depsResolve steps) then
    .error "depends on non-existent step"
  else if !(isDag steps) then
    .error "Dependency graph contains cycles"
  else if !(trustSatisfied metadata.trust_policy.minimum_worker_tier steps) then
    .error "worker trust tier is below minimum required"
  else
    .ok ⟨metadata, steps, references⟩

/-!  ## Worker registry (`registry.py`)

The registry's `_workers` dict and the two reverse indexes are embedded
as insertion-ordered association lists, matching Python dict semantics
(update in place keeps the position, new keys append, `pop` removes).
The index values are Python sets of worker ids, embedded as duplicate-free
lists in insertion order. -/

/-- Python `dict.get`. -/
def alistGet {α : Type} (l : List (String × α)) (k : String) : Option α :=
  (l.find? (fun p => p.1 == k)).map (fun p => p.2)

/-- Python `dict[k] = v`: update in place, else append. -/
def alistSet {α : Type} (l : List (String × α)) (k : String) (v : α) :
    List (String × α) :=
  if l.any (fun p => p.1 == k) then
    l.map (fun p => if p.1 == k then (k, v) else p)
  else l ++ [(k, v)]

/-- Python `dict.pop(k)` (drop the entry, keep the rest in order). -/
def alistPop {α : Type} (l : List (String × α)) (k : String) :
    List (String × α) :=
  l.filter (fun p => p.1 != k)

/-- Python `set.add` on an insertion-ordered set. -/
def setAdd (s : List String) (x : String) : List String :=
  if s.contains x then s else s ++ [x]

/-- Python `set.discard`. -/
def setDiscard (s : List String) (x : String) : List String :=
  s.filter (fun y => y != x)

/-- `defaultdict(set)` access-and-add: `idx[key].add(wid)`. -/
def indexAdd (idx : List (String × List String)) (key wid : String) :
    List (String × List String) :=
  alistSet idx key (setAdd ((alistGet idx key).getD []) wid)

/-- `defaultdict(set)` access-and-discard: `idx[key].discard(wid)`
(accessing a missing key materialises an empty entry, as in Python). -/
def indexDiscard (idx : List (String × List String)) (key wid : String) :
    List (String × List String) :=
  alistSet idx key (setDiscard ((alistGet idx key).getD []) wid)

/-- Registry state: workers plus the two reverse indexes. -/
structure RegState where
  workers : List (String × WorkerManifest) := []
  capability_index : List (String × List String) := []
  tag_index : List (String × List String) := []
deriving DecidableEq, Repr

/-- `WorkerRegistry._add_to_indexes`. -/
def addToIndexes (st : RegState) (m : WorkerManifest) : RegState :=
  m.capabilities.foldl
    (fun acc cap =>
      let acc1 := { acc with
        capability_index :=
          indexAdd acc.capability_index (pyLower cap.tool_name) m.worker_id }
      cap.semantic_tags.foldl
        (fun a tag =>
          { a with tag_index := indexAdd a.tag_index (pyLower tag) m.worker_id })
        acc1)
    st

/-- `WorkerRegistry._remove_from_indexes`. -/
def removeFromIndexes (st : RegState) (m : WorkerManifest) : RegState :=
  m.capabilities.foldl
    (fun acc cap =>
      let acc1 := { acc with
        capability_index :=
          indexDiscard acc.capability_index (pyLower cap.tool_name) m.worker_id }
      cap.semantic_tags.foldl
        (fun a tag =>
          { a with tag_index := indexDiscard a.tag_index (pyLower tag) m.worker_id })
        acc1)
    st

/-- `WorkerRegistry._verify_trust`: untrusted-policy rejection, Phase-1
honor-system assignment, and Phase-4 signature enforcement, in source
order.  Python `not manifest.trust.signature` is `pyStrFalsy`. -/
def verifyTrust (settings : Settings) (manifest : WorkerManifest) :
    Except String WorkerManifest :=
  if manifest.trust.declared_tier = .untrusted
      && !settings.allow_untrusted_workers then
    .error "Untrusted worker registration is disabled"
  else
    let m1 :=
      if manifest.trust.verified_tier.isNone then
        { manifest with trust :=
          { manifest.trust with
            verified_tier := some manifest.trust.declared_tier,
            verification_status := .unknown } }
      else manifest
    let m2 :=
      if settings.require_signatures_production
          && decide (TrustTier.verified ≤ m1.trust.declared_tier)
          && pyStrFalsy m1.trust.signature then
        { m1 with trust :=
          { m1.trust with
            verification_status := .fail,
            verified_tier := some TrustTier.sandbox } }
      else m1
    .ok m2

/-- `WorkerRegistry.register`: stamp `registered_at` (Python
`manifest.registered_at or now`) and `last_seen`, verify trust, drop the
old index entries of a previous registration, store, re-index.  An error
leaves the registry state unobservable to the caller, i.e. unchanged. -/
def register (settings : Settings) (now : Nat) (st : RegState)
    (manifest : WorkerManifest) : Except String (RegState × WorkerManifest) :=
  let m1 := { manifest with
    registered_at := some (manifest.registered_at.getD now),
    last_seen := some now }
  match verifyTrust settings m1 with
  | .error e => .error e
  | .ok m2 =>
    let st1 :=
      match alistGet st.workers m2.worker_id with
      | some old => removeFromIndexes st old
      | none => st
    let st2 := { st1 with workers := alistSet st1.workers m2.worker_id m2 }
    .ok (addToIndexes st2 m2, m2)

/-- `WorkerRegistry.unregister`. -/
def unregister (st : RegState) (worker_id : String) : RegState × Bool :=
  match alistGet st.workers worker_id with
  | none => (st, false)
  | some m =>
    (removeFromIndexes { st with workers := alistPop st.workers worker_id } m,
     true)

/-- `WorkerRegistry.update_worker_status`: replace availability and bump
`last_seen`; every other stored field is untouched. -/
def updateWorkerStatus (now : Nat) (st : RegState) (worker_id : String)
    (availability : WorkerAvailabilityInfo) : RegState × Bool :=
  match alistGet st.workers worker_id with
  | none => (st, false)
  | some m =>
    let m1 := { m with availability := availability, last_seen := some now }
    ({ st with workers := alistSet st.workers worker_id m1 }, true)

/-- `WorkerRegistry._calculate_capability_match`: the `elif` chain over
exact/tool-substring/description-substring, then the tag and word-overlap
bonuses applied through `max`. -/
def calculateCapabilityMatch (queryLower : String) (queryWords : List String)
    (capability : WorkerCapability) : ℚ :=
  let score : ℚ :=
    if queryLower = pyLower capability.tool_name then 1
    else if strSubstr queryLower (pyLower capability.tool_name) then 8/10
    else if strSubstr queryLower (pyLower capability.description) then 6/10
    else 0
  let tagMatches :=
    (capability.semantic_tags.filter
      (fun tag => queryWords.any (fun w => strSubstr w (pyLower tag)))).length
  let score :=
    if tagMatches > 0 then
      max score (4/10 + 1/10 * ((min tagMatches 4 : Nat) : ℚ))
    else score
  let descWords := pyWords (pyLower capability.description)
  let overlap := (queryWords.filter (fun w => descWords.contains w)).length
  if overlap > 0 then
    max score (3/10 + 1/10 * ((min overlap 3 : Nat) : ℚ))
  else score

/-- `WorkerRegistry.search`: trust / offline filters, per-capability
scoring, worker-name floor, zero-score exclusion, stable sort by
descending relevance, truncation to `limit`.  `query_words` is a Python
set, embedded as the deduplicated word list. -/
def search (st : RegState) (query : String) (minTrustTier : Option TrustTier)
    (limit : Nat) : List WorkerSearchResult :=
  let queryLower := pyLower query
  let queryWords := (pyWords queryLower).dedup
  let results := st.workers.foldl
    (fun acc (p : String × WorkerManifest) =>
      let manifest := p.2
      let skipTrust :=
        match minTrustTier with
        | none => false
        | some mt => decide (pyEffectiveTier manifest.trust < mt)
      if skipTrust then acc
      else if manifest.availability.status = .offline then acc
      else
        let z := manifest.capabilities.foldl
          (fun (q : ℚ × List String) cap =>
            let capScore := calculateCapabilityMatch queryLower queryWords cap
            if capScore > 0 then (max q.1 capScore, q.2 ++ [cap.tool_name])
            else q)
          (0, [])
        let score :=
          if strSubstr queryLower (pyLower manifest.worker_name) then
            max z.1 (1/2)
          else z.1
        if score > 0 then
          acc ++ [{ worker_id := p.1, worker_name := manifest.worker_name,
                    relevance_score := min 1 score,
                    matched_capabilities := z.2,
                    trust := manifest.trust,
                    availability := manifest.availability }]
        else acc)
    []
  (results.mergeSort
    (fun a b => decide (b.relevance_score ≤ a.relevance_score))).take limit

/-- The optional-constraints dictionary of `match_intent`
(`require_ready`, `max_load`), with absent keys as `none`. -/
structure MatchConstraints where
  require_ready : Option Bool := none
  max_load : Option ℚ := none
deriving DecidableEq, Repr

/-- `WorkerRegistry.match_intent`: `search` with the policy's minimum
tier (top 50), then the constraint filters. -/
def matchIntent (st : RegState) (intent : String)
    (constraints : Option MatchConstraints)
    (trust_policy : Option TrustPolicy) : List WorkerSearchResult :=
  let cs := constraints.getD {}
  let minTier := trust_policy.map (fun tp => tp.minimum_worker_tier)
  let results := search st intent minTier 50
  results.foldl
    (fun acc result =>
      match alistGet st.workers result.worker_id with
      | none => acc
      | some manifest =>
        if cs.require_ready.getD false
            && !(manifest.availability.status = .ready) then acc
        else if manifest.availability.current_load > cs.max_load.getD 1 then acc
        else if (match trust_policy with
                 | some tp => tp.require_signatures
                     && pyStrFalsy manifest.trust.signature
                 | none => false) then acc
        else acc ++ [result])
    []

/-- Ascending 3-key sort key of `get_worker_for_tool`: availability
(ready first), negated effective tier, load. -/
def gwftKey (m : WorkerManifest) : Nat × Int × ℚ :=
  (if m.availability.status = .ready then 0 else 1,
   -(((pyEffectiveTier m.trust).val : Int)),
   m.availability.current_load)

/-- Lexicographic comparison of `gwftKey` values. -/
def gwftKeyLe (a b : Nat × Int × ℚ) : Bool :=
  a.1 < b.1 || (a.1 = b.1
    && (a.2.1 < b.2.1 || (a.2.1 = b.2.1 && a.2.2 ≤ b.2.2)))

/-- `WorkerRegistry.get_worker_for_tool`: tool-index lookup, trust and
offline filters, stable ascending sort by `gwftKey`, first wins. -/
def getWorkerForTool (st : RegState) (tool_name : String)
    (trust_policy : Option TrustPolicy) : Option WorkerManifest :=
  let ids := (alistGet st.capability_index (pyLower tool_name)).getD []
  let candidates := ids.foldl
    (fun acc wid =>
      match alistGet st.workers wid with
      | none => acc
      | some manifest =>
        let trustFail :=
          match trust_policy with
          | none => false
          | some tp =>
            decide (pyEffectiveTier manifest.trust < tp.minimum_worker_tier)
              || (tp.require_signatures && pyStrFalsy manifest.trust.signature)
        if trustFail then acc
        else if manifest.availability.status = .offline then acc
        else acc ++ [manifest])
    []
  (candidates.mergeSort (fun a b => gwftKeyLe (gwftKey a) (gwftKey b))).head?

/-!  ## Intent analysis (`planner.py`)

The `INTENT_PATTERNS` regexes are alternations of literals, some with a
single `\s+` between two literals.  They are embedded as token
sequences, with `re.search` as match-at-any-position. -/

/-- A token of an intent pattern: a literal or `\s+`. -/
inductive RTok
  | lit (s : String)
  | ws
deriving Repr

/-- Case-insensitive prefix test (for the `re.IGNORECASE` separator
split). -/
def listStartsWithCI : List Char → List Char → Bool
  | [], _ => true
  | _ :: _, [] => false
  | a :: as, b :: bs => a.toLower == b.toLower && listStartsWithCI as bs

/-- Backtracking continuation for `\s+`: try the continuation at the
current position, or consume one more whitespace character and retry. -/
def wsScan (k : List Char → Bool) : List Char → Bool
  | [] => k []
  | c :: cs => k (c :: cs) || (c.isWhitespace && wsScan k cs)

/-- Matches a token sequence against a prefix of `cs`.  A `\s+` token
consumes one whitespace character and then backtracks through `wsScan`
(full `\s+` semantics). -/
def seqMatch : List RTok → List Char → Bool
  | [], _ => true
  | .lit s :: rest, cs =>
    listStartsWith s.toList cs && seqMatch rest (cs.drop s.toList.length)
  | .ws :: rest, cs =>
    match cs with
    | [] => false
    | c :: cs2 => c.isWhitespace && wsScan (fun l => seqMatch rest l) cs2

/-- `re.search` of an alternation: some alternative matches at some
position. -/
def rePatSearchAux (alts : List (List RTok)) : List Char → Bool
  | [] => alts.any (fun seq => seqMatch seq [])
  | c :: cs =>
    alts.any (fun seq => seqMatch seq (c :: cs)) || rePatSearchAux alts cs

/-- `re.search(pattern, hay)` as a Boolean. -/
def rePatSearch (alts : List (List RTok)) (hay : String) : Bool :=
  rePatSearchAux alts hay.toList

/-- The ordered `INTENT_PATTERNS` table of planner.py. -/
def INTENT_PATTERNS : List (List (List RTok) × String) :=
  [([[.lit "generate"], [.lit "create"], [.lit "write"],
     [.lit "implement", .ws, .lit "code"]], "code.generate"),
   ([[.lit "review"], [.lit "check"],
     [.lit "analyze", .ws, .lit "code"]], "code.review"),
   ([[.lit "refactor"], [.lit "improve"],
     [.lit "optimize", .ws, .lit "code"]], "code.refactor"),
   ([[.lit "analyze"], [.lit "examine"],
     [.lit "investigate", .ws, .lit "data"]], "data.analyze"),
   ([[.lit "transform"], [.lit "convert"],
     [.lit "process", .ws, .lit "data"]], "data.transform"),
   ([[.lit "extract"], [.lit "parse"]], "data.extract"),
   ([[.lit "summarize"], [.lit "summary"], [.lit "tldr"]], "text.summarize"),
   ([[.lit "translate"], [.lit "translation"]], "text.translate"),
   ([[.lit "ocr"], [.lit "extract", .ws, .lit "text"],
     [.lit "scan"]], "document.ocr"),
   ([[.lit "invoice"], [.lit "receipt"], [.lit "bill"]], "document.invoice"),
   ([[.lit "pdf"], [.lit "document"]], "document.process"),
   ([[.lit "search"], [.lit "find"], [.lit "lookup"],
     [.lit "research"]], "search"),
   ([[.lit "generate", .ws, .lit "image"],
     [.lit "create", .ws, .lit "image"], [.lit "draw"]], "image.generate"),
   ([[.lit "analyze", .ws, .lit "image"],
     [.lit "image", .ws, .lit "analysis"]], "image.analyze"),
   ([[.lit "enhance"],
     [.lit "improve", .ws, .lit "quality"]], "image.enhance")]

/-- `detect_task_type`: first pattern that matches the lower-cased
intent wins; `generic` if none match. -/
def detectTaskType (intent : String) : String :=
  match INTENT_PATTERNS.find? (fun p => rePatSearch p.1 (pyLower intent)) with
  | some p => p.2
  | none => "generic"

/-- Complexity-indicating vocabulary. -/
def COMPLEXITY_COMPLEX_WORDS : List String :=
  ["multiple", "several", "all", "entire", "complete",
   "analyze", "research", "comprehensive", "full",
   "pipeline", "workflow", "sequence"]

/-- Simplicity-indicating vocabulary. -/
def COMPLEXITY_SIMPLE_WORDS : List String :=
  ["single", "one", "simple", "quick", "just", "only", "basic"]

/-- `estimate_complexity`: lexical-overlap scores with the multi-step and
context-size bumps.  The context dict is consulted only through
`len(context)`, embedded as `contextEntries`. -/
def estimateComplexity (intent : String) (contextEntries : Nat) : String :=
  let intentLower := pyLower intent
  let intentWords := (pyWords intentLower).dedup
  let complexScore :=
    (intentWords.filter (fun w => COMPLEXITY_COMPLEX_WORDS.contains w)).length
  let simpleScore :=
    (intentWords.filter (fun w => COMPLEXITY_SIMPLE_WORDS.contains w)).length
  let complexScore :=
    if strSubstr " and " intentLower || strSubstr "," intent then
      complexScore + 2
    else complexScore
  let complexScore :=
    if contextEntries > 3 then complexScore + 1 else complexScore
  if complexScore > simpleScore + 1 then "complex"
  else if simpleScore > complexScore then "simple"
  else "medium"

/-- `detect_scope`. -/
def detectScope (intent : String) (complexity : String) : PlanScope :=
  let intentLower := pyLower intent
  if ["campaign", "project", "initiative"].any
      (fun w => strSubstr w intentLower) then .campaign
  else if complexity = "complex" || strSubstr "workflow" intentLower then
    .workflow
  else .single_task

example : detectTaskType "Extract text from invoice.pdf" = "data.extract" := by decide
example : detectTaskType "hello there" = "generic" := by decide
example : detectTaskType "implement   code for x" = "code.generate" := by decide
example : estimateComplexity "just one thing" 0 = "simple" := by decide
example : estimateComplexity "analyze all documents and create comprehensive report" 0 = "complex" := by decide

/-!  ## Plan synthesis (`planner.py`)  -/

/-- Python `str.strip()`. -/
def pyStrip (s : String) : String :=
  String.mk
    (((s.toList.dropWhile Char.isWhitespace).reverse.dropWhile
      Char.isWhitespace).reverse)

/-- Python `s[:n]`. -/
def pyTake (s : String) (n : Nat) : String := String.mk (s.toList.take n)

/-- `re.split(r",\s*| and ", intent, flags=re.IGNORECASE)`: scan left to
right; a comma consumes the following whitespace run greedily; `" and "`
matches case-insensitively.  The fuel argument (initialised to the
character count, consumption is at least one character per step) makes
the scan structurally recursive; it never runs out. -/
def splitSepsFuel : Nat → List Char → List Char → List String
  | 0, cur, _ => [String.mk cur.reverse]
  | _ + 1, cur, [] => [String.mk cur.reverse]
  | fuel + 1, cur, c :: rest =>
    if c = ',' then
      String.mk cur.reverse ::
        splitSepsFuel fuel [] (rest.dropWhile Char.isWhitespace)
    else if listStartsWithCI (String.toList " and ") (c :: rest) then
      String.mk cur.reverse :: splitSepsFuel fuel [] (rest.drop 4)
    else
      splitSepsFuel fuel (c :: cur) rest

/-- Split an intent at the `",\s*"` / `" and "` separators. -/
def pySplitSeps (s : String) : List String :=
  splitSepsFuel s.toList.length [] s.toList

/-- A subtask dictionary produced by `_split_into_subtasks` (every
branch populates all four keys). -/
structure Subtask where
  description : String
  task_type : String
  params : List (String × PyVal)
  timeout : Nat

/-- `Planner._default_subtasks`. -/
def defaultSubtasks (intent task_type : String) : List Subtask :=
  [{ description := "Primary task: " ++ intent,
     task_type := task_type,
     params := [("intent", .s intent)],
     timeout := 300 },
   { description := "Verify and validate results",
     task_type := "generic",
     params := [("phase", .s "verify"), ("intent", .s intent)],
     timeout := 120 }]

/-- `Planner._split_into_subtasks`: conjunction split (with original
enumeration indices as `part_number` and the `detect_task_type(part) or
task_type` truthiness fallback), else the gather/analyze/generate
three-phase split, else the default two-phase split. -/
def splitIntoSubtasks (intent task_type : String) : List Subtask :=
  let intentLower := pyLower intent
  if strSubstr " and " intentLower || strSubstr "," intent then
    let parts := pySplitSeps intent
    let subtasks := parts.enum.foldl
      (fun acc (p : Nat × String) =>
        let part := pyStrip p.2
        if part ≠ "" then
          let tt := detectTaskType part
          acc ++ [{ description := part,
                    task_type := if tt = "" then task_type else tt,
                    params := [("subtask", .s part),
                               ("part_number", .n (p.1 + 1))],
                    timeout := 300 }]
        else acc)
      []
    if subtasks.isEmpty then defaultSubtasks intent task_type else subtasks
  else if ["all", "multiple", "several", "every"].any
      (fun w => strSubstr w intentLower) then
    [{ description := "Gather data for: " ++ intent,
       task_type := if strSubstr "search" intentLower then "search"
         else task_type,
       params := [("phase", .s "gather"), ("intent", .s intent)],
       timeout := 300 },
     { description := "Analyze gathered data",
       task_type := "data.analyze",
       params := [("phase", .s "analyze"), ("intent", .s intent)],
       timeout := 300 },
     { description := "Generate final output",
       task_type := task_type,
       params := [("phase", .s "generate"), ("intent", .s intent)],
       timeout := 300 }]
  else defaultSubtasks intent task_type

/-- Intent specification for plan creation. -/
structure IntentInput where
  type : String := "natural_language"
  content : String
  urgency : String := "normal"
deriving DecidableEq, Repr

/-- Context for plan creation. -/
structure PlanContext where
  memorygate_refs : List Nat := []
  asyncgate_task_refs : List String := []
  user_constraints : List String := []
deriving DecidableEq, Repr

/-- Options for plan generation. -/
structure PlanningOptions where
  max_steps : Nat := 20
  allow_escalation : Bool := true
  prefer_sync : Bool := false
  trust_policy : TrustPolicy := {}
deriving DecidableEq, Repr

/-- Request to create a delegation plan. -/
structure PlanRequest where
  intent : IntentInput
  context : PlanContext := {}
  planning_options : PlanningOptions := {}
deriving DecidableEq, Repr

/-- Metadata about the planning process.  Wall-clock duration is not
modelled and stays `0`. -/
structure PlanningMetadata where
  workers_considered : Nat := 0
  planning_duration_ms : Nat := 0
  confidence : ℚ := 8/10
  warnings : List String := []
deriving DecidableEq, Repr

/-- Response after attempting to create a plan. -/
structure PlanResponse where
  status : String
  plan : Option Plan := none
  planning_metadata : Option PlanningMetadata := none
  reason : Option String := none
  message : Option String := none
  suggested_actions : List String := []
  context : List (String × PyVal) := []
  error_code : Option String := none
  suggestions : List String := []

/-- `Planner._build_references`. -/
def buildReferences (req : PlanRequest) : PlanReferences :=
  { input_sources :=
      req.context.memorygate_refs.map
        (fun obs => { type := "memorygate_observation",
                      observation_id := some obs,
                      relevance := some "context" }) ++
      req.context.asyncgate_task_refs.map
        (fun tid => { type := "asyncgate_task",
                      task_id := some tid,
                      relevance := some "related_task" }),
    expected_outputs := [] }

/-- `Planner._calculate_confidence`: base per complexity class,
scaled by `0.5 + 0.5 × best score` when any worker matched, capped at
1. -/
def calcConfidence (workers : List WorkerSearchResult)
    (complexity : String) : ℚ :=
  let base : ℚ :=
    if complexity = "simple" then 9/10
    else if complexity = "medium" then 8/10
    else if complexity = "complex" then 7/10
    else 3/4
  let base :=
    match workers with
    | [] => base
    | w :: ws =>
      base * (1/2 + 1/2 *
        (ws.foldl (fun m x => max m x.relevance_score) w.relevance_score))
  min 1 base

/-- `Planner._escalation_response`. -/
def escalationResponse (reason : EscalationReason) (message : String)
    (suggested_actions : List String) (context : List (String × PyVal)) :
    PlanResponse :=
  { status := "requires_escalation",
    reason := some reason.value,
    message := some message,
    suggested_actions := suggested_actions,
    context := context }

/-- `Planner._create_simple_plan`.  Fresh step ids come from the ULID
supply `gen` (indices local to the builder); `pid` is the generated plan
id.  A raised `ValueError` anywhere inside (step or plan validation, or
`workers[0]` on an empty list) surfaces as `Except.error`, which
`create_plan` catches. -/
def createSimplePlan (settings : Settings) (gen : Nat → String)
    (pid : String) (st : RegState) (req : PlanRequest) (task_type : String)
    (workers : List WorkerSearchResult) (scope : PlanScope) :
    Except String Plan :=
  let intent := req.intent.content
  match workers with
  | [] => .error "list index out of range"
  | worker :: _ =>
    let tool_name :=
      match worker.matched_capabilities with
      | [] => task_type
      | t :: _ => t
    let manifest := alistGet st.workers worker.worker_id
    let sType : StepType :=
      if req.planning_options.prefer_sync then .call_worker
      else .queue_execution
    let step1_id := gen 0
    do
      let s1 ← mkPlanStep
        { step_id := step1_id,
          step_type := sType,
          worker_id := some worker.worker_id,
          tool_name := some tool_name,
          parameters := [("intent", .s intent)],
          trust := some ((manifest.map (fun m => m.trust)).getD worker.trust),
          output_binding := some "result",
          timeout_seconds :=
            if sType = .queue_execution then some 300 else none }
      let steps ←
        if sType = .queue_execution then do
          let s2 ← mkPlanStep
            { step_id := gen 1,
              step_type := .wait_for,
              depends_on := [step1_id],
              wait_conditions :=
                [{ type := .task_completion,
                   task_id := some ("$\x7b" ++ step1_id ++ ".output.task_id\x7d") }],
              timeout_seconds := some 600,
              output_binding := some "wait_result" }
          pure [s1, s2]
        else pure [s1]
      mkPlan
        { plan_id := pid,
          delegate_id := settings.instance_id,
          intent_summary := pyTake intent 200,
          scope := scope,
          confidence := 9/10,
          trust_policy := req.planning_options.trust_policy,
          assumptions :=
            ["Worker " ++ worker.worker_id ++ " can handle " ++ task_type] }
        steps (buildReferences req)

/-- `Planner._create_medium_plan`: queue, wait, aggregate. -/
def createMediumPlan (settings : Settings) (gen : Nat → String)
    (pid : String) (st : RegState) (req : PlanRequest) (task_type : String)
    (workers : List WorkerSearchResult) (scope : PlanScope) :
    Except String Plan :=
  let intent := req.intent.content
  match workers with
  | [] => .error "list index out of range"
  | worker :: _ =>
    let tool_name :=
      match worker.matched_capabilities with
      | [] => task_type
      | t :: _ => t
    let manifest := alistGet st.workers worker.worker_id
    let step1_id := gen 0
    let step2_id := gen 1
    let step3_id := gen 2
    do
      let s1 ← mkPlanStep
        { step_id := step1_id,
          step_type := .queue_execution,
          worker_id := some worker.worker_id,
          tool_name := some tool_name,
          parameters := [("intent", .s intent)],
          trust := some ((manifest.map (fun m => m.trust)).getD worker.trust),
          output_binding := some "primary_result",
          timeout_seconds := some 300 }
      let s2 ← mkPlanStep
        { step_id := step2_id,
          step_type := .wait_for,
          depends_on := [step1_id],
          wait_conditions :=
            [{ type := .task_completion,
               task_id := some ("$\x7b" ++ step1_id ++ ".output.task_id\x7d") }],
          timeout_seconds := some 600,
          output_binding := some "wait_result" }
      let s3 ← mkPlanStep
        { step_id := step3_id,
          step_type := .aggregate,
          depends_on := [step2_id],
          inputs := ["$\x7b" ++ step1_id ++ ".output\x7d"],
          aggregation_instruction := some "Summarize and validate the results",
          output_binding := some "summary" }
      mkPlan
        { plan_id := pid,
          delegate_id := settings.instance_id,
          intent_summary := pyTake intent 200,
          scope := scope,
          confidence := 8/10,
          trust_policy := req.planning_options.trust_policy,
          assumptions :=
            ["Worker " ++ worker.worker_id ++ " can handle " ++ task_type,
             "Results can be aggregated into summary"] }
        [s1, s2, s3] (buildReferences req)

/-- Dictionary value of a subtask, as stored in the escalate step's
context payload. -/
def Subtask.toPyVal (s : Subtask) : PyVal :=
  .dict [("description", .s s.description),
         ("task_type", .s s.task_type),
         ("params", .dict s.params),
         ("timeout", .n s.timeout)]

/-- The worker choice of the complex-plan loop: the subtask's own best
match, else the top-level best match, else nothing. -/
def chooseWorker (subtaskWorkers workers : List WorkerSearchResult) :
    Option WorkerSearchResult :=
  match subtaskWorkers with
  | w :: _ => some w
  | [] =>
    match workers with
    | w :: _ => some w
    | [] => none

/-- The per-subtask body of `_create_complex_plan`'s loop: match the
subtask's own workers, fall back to the top-level worker set, skip when
neither resolves; a resolved subtask appends one `queue_execution` step
and its fresh id. -/
def complexFoldStep (gen : Nat → String) (st : RegState) (tp : TrustPolicy)
    (workers : List WorkerSearchResult)
    (acc : Nat × List PlanStep × List String) (p : Nat × Subtask) :
    Except String (Nat × List PlanStep × List String) := do
  let subtask := p.2
  let subtaskWorkers := matchIntent st subtask.description none (some tp)
  match chooseWorker subtaskWorkers workers with
  | none => pure acc
  | some worker => do
    let manifest := alistGet st.workers worker.worker_id
    let step_id := gen acc.1
    let tool_name :=
      match worker.matched_capabilities with
      | [] => subtask.task_type
      | t :: _ => t
    let s ← mkPlanStep
      { step_id := step_id,
        step_type := .queue_execution,
        worker_id := some worker.worker_id,
        tool_name := some tool_name,
        parameters := subtask.params,
        trust :=
          some ((manifest.map (fun m => m.trust)).getD worker.trust),
        output_binding := some ("subtask_" ++ toString p.1 ++ "_result"),
        timeout_seconds := some subtask.timeout }
    pure (acc.1 + 1, acc.2.1 ++ [s], acc.2.2 ++ [step_id])

/-- `Planner._create_complex_plan`: one queued execution step per
subtask that resolves to a worker (silently dropping the rest), then a
degenerate escalate step when nothing resolved, else a wait-for-all
step and an aggregate step. -/
def createComplexPlan (settings : Settings) (gen : Nat → String)
    (pid : String) (st : RegState) (req : PlanRequest) (task_type : String)
    (workers : List WorkerSearchResult) (scope : PlanScope) :
    Except String Plan :=
  let intent := req.intent.content
  let subtasks := splitIntoSubtasks intent task_type
  do
    let acc ← subtasks.enum.foldlM
      (complexFoldStep gen st req.planning_options.trust_policy workers)
      (0, [], [])
    let execIds := acc.2.2
    let steps ←
      if execIds.isEmpty then do
        let s ← mkPlanStep
          { step_id := gen acc.1,
            step_type := .escalate,
            reason := some .no_capable_workers,
            message := some "Could not find workers for any subtask",
            context :=
              [("subtasks", PyVal.arr (subtasks.map Subtask.toPyVal))],
            suggested_options :=
              ["Register additional workers", "Simplify request"] }
        pure (acc.2.1 ++ [s])
      else do
        let wait_id := gen acc.1
        let w ← mkPlanStep
          { step_id := wait_id,
            step_type := .wait_for,
            depends_on := execIds,
            wait_conditions := execIds.map
              (fun sid =>
                { type := .task_completion,
                  task_id := some ("$\x7b" ++ sid ++ ".output.task_id\x7d") }),
            timeout_seconds := some 900,
            output_binding := some "all_results" }
        let a ← mkPlanStep
          { step_id := gen (acc.1 + 1),
            step_type := .aggregate,
            depends_on := [wait_id],
            inputs := execIds.map (fun sid => "$\x7b" ++ sid ++ ".output\x7d"),
            aggregation_instruction :=
              some "Combine results from all subtasks into coherent output",
            output_binding := some "final_result" }
        pure (acc.2.1 ++ [w, a])
    mkPlan
      { plan_id := pid,
        delegate_id := settings.instance_id,
        intent_summary := pyTake intent 200,
        scope := scope,
        confidence := 7/10,
        estimated_cost_units := some (subtasks.length * 50),
        trust_policy := req.planning_options.trust_policy,
        assumptions :=
          ["Intent can be decomposed into " ++ toString subtasks.length
            ++ " subtasks",
           "Subtask results can be aggregated"] }
      steps (buildReferences req)

/-- `Planner.create_plan`: analyze the intent, match workers, branch to
escalation / hard failure when none match, else build the
complexity-appropriate plan; any raised error is converted to the same
escalation / failure branch.  The `context_data` dict always has exactly
three keys. -/
def createPlan (settings : Settings) (gen : Nat → String) (pid : String)
    (st : RegState) (req : PlanRequest) : PlanResponse :=
  let intent := req.intent.content
  let task_type := detectTaskType intent
  let complexity := estimateComplexity intent 3
  let scope := detectScope intent complexity
  let workers :=
    matchIntent st intent none (some req.planning_options.trust_policy)
  if workers.isEmpty then
    if req.planning_options.allow_escalation then
      escalationResponse .no_capable_workers
        ("No workers available for task type: " ++ task_type)
        ["Register a worker with matching capabilities",
         "Modify intent to match available workers",
         "Lower trust tier requirements"]
        [("task_type", .s task_type), ("intent", .s intent)]
    else
      { status := "planning_failed",
        error_code := some "NO_CAPABLE_WORKERS",
        message := some ("No workers available for: " ++ pyTake intent 100),
        suggestions := ["Register appropriate workers"] }
  else
    let warnings := workers.foldl
      (fun acc w =>
        if w.availability.status = .degraded then
          acc ++ ["Worker " ++ w.worker_id ++ " has degraded availability"]
        else acc)
      []
    let planE :=
      if complexity = "simple" then
        createSimplePlan settings gen pid st req task_type workers scope
      else if complexity = "medium" then
        createMediumPlan settings gen pid st req task_type workers scope
      else
        createComplexPlan settings gen pid st req task_type workers scope
    match planE with
    | .ok plan =>
      { status := "plan_created",
        plan := some plan,
        planning_metadata := some
          { workers_considered := workers.length,
            planning_duration_ms := 0,
            confidence := calcConfidence workers complexity,
            warnings := warnings } }
    | .error e =>
      if req.planning_options.allow_escalation then
        escalationResponse .other ("Planning failed: " ++ e)
          ["Retry with simpler intent", "Check system status"]
          [("error", .s e)]
      else
        { status := "planning_failed",
          error_code := some "PLANNING_ERROR",
          message := some e }

unseal List.merge List.mergeSort Rat.mul Rat.add Rat.sub Rat.inv Rat.ofScientific

/-!  ## Specification-side definitions and theorems

Definitions prefixed `spec` / `claim` below transcribe sentences of the
specification, to be compared with the embeddings above. -/

/-- Complex-score of the specification: count of (distinct) intent words
in the complexity vocabulary, plus 2 for an explicit `" and "`/comma
multi-step indicator, plus 1 for a context with more than 3 entries. -/
def specComplexScore (intent : String) (contextEntries : Nat) : Nat :=
  ((pyWords (pyLower intent)).dedup.filter
    (fun w => COMPLEXITY_COMPLEX_WORDS.contains w)).length
  + (if strSubstr " and " (pyLower intent) || strSubstr "," intent then 2
     else 0)
  + (if contextEntries > 3 then 1 else 0)

/-- Simple-score of the specification: count of (distinct) intent words
in the simplicity vocabulary. -/
def specSimpleScore (intent : String) : Nat :=
  ((pyWords (pyLower intent)).dedup.filter
    (fun w => COMPLEXITY_SIMPLE_WORDS.contains w)).length

/-- The specification's classification rule: `complex` iff
complex-score > simple-score + 1, else `simple` iff simple-score >
complex-score, else `medium`. -/
def specEstimateComplexity (intent : String) (contextEntries : Nat) :
    String :=
  if specComplexScore intent contextEntries > specSimpleScore intent + 1 then
    "complex"
  else if specSimpleScore intent > specComplexScore intent contextEntries then
    "simple"
  else "medium"

/-- C9: `estimate_complexity` computes exactly the specification's
scores and classification (`complex` iff complex-score > simple-score +
1, else `simple` iff simple-score > complex-score, else `medium`), and
is total by construction. -/
theorem c9_estimate_complexity_correct (intent : String)
    (contextEntries : Nat) :
    estimateComplexity intent contextEntries
      = specEstimateComplexity intent contextEntries := by
  unfold estimateComplexity specEstimateComplexity specComplexScore
    specSimpleScore
  by_cases h1 : strSubstr " and " (pyLower intent) || strSubstr "," intent
  <;> by_cases h2 : contextEntries > 3
  <;> simp [h1, h2]



/-- The trust data `_verify_trust` returns on success, as an explicit
function of the input trust: honor-system assignment, then the Phase-4
override (both conditions only read fields the first stage never
changes). -/
def verifiedTrustResult (settings : Settings) (t : TrustInfo) : TrustInfo :=
  let t1 :=
    if t.verified_tier.isNone then
      { t with verified_tier := some t.declared_tier,
               verification_status := .unknown }
    else t
  if settings.require_signatures_production
      && decide (TrustTier.verified ≤ t.declared_tier)
      && pyStrFalsy t.signature then
    { t1 with verification_status := .fail,
              verified_tier := some TrustTier.sandbox }
  else t1

/-- Helper: on success `_verify_trust` rewrites the trust data to
`verifiedTrustResult` and changes nothing else. -/
theorem verifyTrust_ok_eq (settings : Settings) (m m2 : WorkerManifest)
    (hok : verifyTrust settings m = .ok m2) :
    m2 = { m with trust := verifiedTrustResult settings m.trust } := by
  unfold verifyTrust at hok
  by_cases hA : (decide (m.trust.declared_tier = TrustTier.untrusted)
      && !settings.allow_untrusted_workers) = true
  · rw [if_pos hA] at hok
    exact Except.noConfusion hok
  · rw [if_neg hA] at hok
    simp only [Except.ok.injEq] at hok
    subst hok
    by_cases hV : m.trust.verified_tier.isNone = true
    <;> by_cases hE : (settings.require_signatures_production
        && decide (TrustTier.verified ≤ m.trust.declared_tier)
        && pyStrFalsy m.trust.signature) = true
    <;> simp [verifiedTrustResult, hV, hE]

/-- C4: the trust verification routine run on every register satisfies:
(1) a manifest declaring `untrusted` while untrusted registration is
disabled by policy is rejected — both `_verify_trust` and `register`
fail, and a failing `register` produces no new registry state;
(2) a manifest entering with no verified tier leaves with verification
status never `pass`, and — whenever the Phase-4 enforcement clause does
not fire — with verified tier set equal to the declared tier and status
`unknown`;
(3) under production signature enforcement, declared tier ≥ `verified`
and an absent (falsy) signature force status `fail` and clamp the
verified tier to `sandbox`. -/
theorem c4_verify_trust (settings : Settings) (now : Nat) (st : RegState)
    (m : WorkerManifest) :
    (m.trust.declared_tier = .untrusted →
      settings.allow_untrusted_workers = false →
      verifyTrust settings m
          = .error "Untrusted worker registration is disabled" ∧
        register settings now st m
          = .error "Untrusted worker registration is disabled")
    ∧ (∀ m2, verifyTrust settings m = .ok m2 →
        (m.trust.verified_tier = none →
          m2.trust.verification_status ≠ .pass ∧
          (¬(settings.require_signatures_production = true
              ∧ TrustTier.verified ≤ m.trust.declared_tier
              ∧ pyStrFalsy m.trust.signature = true) →
            m2.trust.verified_tier = some m.trust.declared_tier ∧
              m2.trust.verification_status = .unknown))
        ∧ (settings.require_signatures_production = true →
            TrustTier.verified ≤ m.trust.declared_tier →
            pyStrFalsy m.trust.signature = true →
            m2.trust.verification_status = .fail ∧
              m2.trust.verified_tier = some TrustTier.sandbox)) := by
  constructor
  · intro hd ha
    constructor
    · unfold verifyTrust
      simp [hd, ha]
    · unfold register verifyTrust
      simp [hd, ha]
  · intro m2 hok
    have hm2 := verifyTrust_ok_eq settings m m2 hok
    have htr : m2.trust = verifiedTrustResult settings m.trust := by
      rw [hm2]
    constructor
    · intro hnone
      constructor
      · rw [htr]
        unfold verifiedTrustResult
        by_cases hE : (settings.require_signatures_production
            && decide (TrustTier.verified ≤ m.trust.declared_tier)
            && pyStrFalsy m.trust.signature) = true
        <;> simp [hnone, hE]
      · intro hnc
        have hE : (settings.require_signatures_production
            && decide (TrustTier.verified ≤ m.trust.declared_tier)
            && pyStrFalsy m.trust.signature) = false := by
          by_contra hne
          have hb := eq_true_of_ne_false hne
          exact hnc ⟨Bool.and_elim_left (Bool.and_elim_left hb),
            of_decide_eq_true (Bool.and_elim_right (Bool.and_elim_left hb)),
            Bool.and_elim_right hb⟩
        rw [htr]
        unfold verifiedTrustResult
        simp [hnone, hE]
    · intro h1 h2 h3
      have hE : (settings.require_signatures_production
          && decide (TrustTier.verified ≤ m.trust.declared_tier)
          && pyStrFalsy m.trust.signature) = true := by
        rw [h1, h3]
        simp [h2]
      rw [htr]
      unfold verifiedTrustResult
      simp [hE]

/-- Witness for C4 at three concrete inputs, one per clause. -/
theorem c4_verify_trust_witness :
    (verifyTrust { allow_untrusted_workers := false }
        { worker_id := "w", worker_name := "W",
          trust := { declared_tier := .untrusted } }
        = .error "Untrusted worker registration is disabled")
    ∧ (∃ m2, verifyTrust {}
        { worker_id := "w", worker_name := "W",
          trust := { declared_tier := .sandbox } } = .ok m2
        ∧ m2.trust.verified_tier = some TrustTier.sandbox
        ∧ m2.trust.verification_status = .unknown)
    ∧ (∃ m2, verifyTrust { require_signatures_production := true }
        { worker_id := "w", worker_name := "W",
          trust := { declared_tier := .verified } } = .ok m2
        ∧ m2.trust.verification_status = .fail
        ∧ m2.trust.verified_tier = some TrustTier.sandbox) := by
  refine ⟨?_, ?_, ?_⟩
  · exact ((c4_verify_trust { allow_untrusted_workers := false } 0 {}
      { worker_id := "w", worker_name := "W",
        trust := { declared_tier := .untrusted } }).1 rfl rfl).1
  · obtain ⟨m2, hm2⟩ : ∃ m2, verifyTrust {}
        { worker_id := "w", worker_name := "W",
          trust := { declared_tier := .sandbox } } = .ok m2 := ⟨_, rfl⟩
    have h := (((c4_verify_trust {} 0 {}
      { worker_id := "w", worker_name := "W",
        trust := { declared_tier := .sandbox } }).2 m2 hm2).1 rfl).2
      (by intro hcon; exact absurd hcon.2.1 (by decide))
    exact ⟨m2, hm2, h.1, h.2⟩
  · obtain ⟨m2, hm2⟩ : ∃ m2, verifyTrust { require_signatures_production := true }
        { worker_id := "w", worker_name := "W",
          trust := { declared_tier := .verified } } = .ok m2 := ⟨_, rfl⟩
    have h := ((c4_verify_trust { require_signatures_production := true } 0 {}
      { worker_id := "w", worker_name := "W",
        trust := { declared_tier := .verified } }).2 m2 hm2).2 rfl
      (by decide) (by decide)
    exact ⟨m2, hm2, h.1, h.2⟩

/-- Generic fold invariant used for the index-maintenance helpers: a
fold whose step never touches the workers table preserves it. -/
theorem foldl_workers_eq {β : Type} (f : RegState → β → RegState)
    (h : ∀ st b, (f st b).workers = st.workers) (l : List β) (st : RegState) :
    (l.foldl f st).workers = st.workers := by
  induction l generalizing st with
  | nil => rfl
  | cons b t ih => rw [List.foldl_cons, ih, h]

/-- Helper: re-indexing does not touch the workers table. -/
theorem addToIndexes_workers (st : RegState) (m : WorkerManifest) :
    (addToIndexes st m).workers = st.workers := by
  unfold addToIndexes
  apply foldl_workers_eq
  intro st1 cap
  apply foldl_workers_eq
  intro st2 tag
  rfl

/-- Helper: index removal does not touch the workers table. -/
theorem removeFromIndexes_workers (st : RegState) (m : WorkerManifest) :
    (removeFromIndexes st m).workers = st.workers := by
  unfold removeFromIndexes
  apply foldl_workers_eq
  intro st1 cap
  apply foldl_workers_eq
  intro st2 tag
  rfl

/-- Helper: when the key is present, updating in place stores the
value. -/
theorem alistGet_map_update {α : Type} (l : List (String × α))
    (k : String) (v : α) (h : l.any (fun p => p.1 == k) = true) :
    alistGet (l.map (fun p => if p.1 == k then (k, v) else p)) k
      = some v := by
  induction l with
  | nil => simp at h
  | cons p t ih =>
    rw [List.map_cons]
    by_cases hp : (p.1 == k) = true
    · rw [if_pos hp]
      unfold alistGet
      rw [List.find?_cons_of_pos _ (by simp)]
      rfl
    · rw [if_neg hp]
      have ht : t.any (fun q => q.1 == k) = true := by
        simpa [List.any_cons, hp] using h
      unfold alistGet at ih ⊢
      rw [List.find?_cons_of_neg _ (by simpa using hp)]
      exact ih ht

/-- Helper: when the key is absent, appending stores the value. -/
theorem alistGet_append_new {α : Type} (l : List (String × α))
    (k : String) (v : α) (h : l.any (fun p => p.1 == k) = false) :
    alistGet (l ++ [(k, v)]) k = some v := by
  induction l with
  | nil =>
    unfold alistGet
    rw [List.nil_append, List.find?_cons_of_pos _ (by simp)]
    rfl
  | cons p t ih =>
    have hp : (p.1 == k) = false := by
      by_contra hc
      simp [List.any_cons, eq_true_of_ne_false hc] at h
    have ht : t.any (fun q => q.1 == k) = false := by
      simpa [List.any_cons, hp] using h
    unfold alistGet at ih ⊢
    rw [List.cons_append, List.find?_cons_of_neg _ (by simp [hp])]
    exact ih ht

/-- Helper: looking up a key just stored by `alistSet` yields the stored
value. -/
theorem alistGet_alistSet_self {α : Type} (l : List (String × α))
    (k : String) (v : α) : alistGet (alistSet l k v) k = some v := by
  unfold alistSet
  by_cases h : l.any (fun p => p.1 == k)
  · rw [if_pos h]
    exact alistGet_map_update l k v h
  · rw [if_neg h]
    exact alistGet_append_new l k v (Bool.of_not_eq_true h)

/-- C7 (amended): on success, `register` stores at the worker id a
manifest that is entirely determined by the newly supplied manifest:
every field is the new value (trust after verification), `last_seen` is
the registration instant, and `registered_at` is the new manifest's own
`registered_at` when supplied, else the registration instant — the
previously stored `registered_at` is not consulted (last write wins for
it too). -/
theorem c7_register_last_write_wins (settings : Settings) (now : Nat)
    (st : RegState) (m : WorkerManifest) (st2 : RegState)
    (m2 : WorkerManifest)
    (hok : register settings now st m = .ok (st2, m2)) :
    alistGet st2.workers m.worker_id = some m2 ∧
    m2.registered_at = some (m.registered_at.getD now) ∧
    m2.last_seen = some now ∧
    m2.worker_name = m.worker_name ∧
    m2.version = m.version ∧
    m2.capabilities = m.capabilities ∧
    m2.availability = m.availability ∧
    m2.constraints = m.constraints ∧
    m2.trust = verifiedTrustResult settings m.trust := by
  unfold register at hok
  dsimp only [] at hok
  cases hv : verifyTrust settings
      { m with registered_at := some (m.registered_at.getD now),
               last_seen := some now } with
  | error e => rw [hv] at hok; exact Except.noConfusion hok
  | ok mv =>
    rw [hv] at hok
    simp only [Except.ok.injEq, Prod.mk.injEq] at hok
    obtain ⟨hst, hm⟩ := hok
    have hmv := verifyTrust_ok_eq _ _ _ hv
    subst hm
    subst hmv
    refine ⟨?_, ?_, ?_, ?_, ?_, ?_, ?_, ?_, ?_⟩
    · rw [← hst, addToIndexes_workers]
      exact alistGet_alistSet_self _ _ _
    all_goals rfl

/-- First registration manifest for the C7 counterexample (no
`registered_at` supplied, as a fresh client sends it). -/
def c7m1 : WorkerManifest :=
  { worker_id := "w", worker_name := "Worker v1",
    trust := { declared_tier := .sandbox } }

/-- Re-registration manifest for the C7 counterexample: same id, fresh
fields, again no `registered_at`. -/
def c7m2 : WorkerManifest :=
  { worker_id := "w", worker_name := "Worker v2",
    trust := { declared_tier := .verified } }

/-- Registry state after registering `c7m1` at instant 1. -/
def c7st1 : RegState :=
  ((register {} 1 {} c7m1).toOption.map (fun p => p.1)).getD {}

/-- Registry state after re-registering the same worker id at
instant 2. -/
def c7st2 : RegState :=
  ((register {} 2 c7st1 c7m2).toOption.map (fun p => p.1)).getD {}

/-- C7 counterexample: re-registering worker id `"w"` changes the
stored `registered_at` from `1` (first registration) to `2`, refuting
the claim that `registered_at` stays equal to the value recorded at the
first registration. -/
theorem c7_counterexample :
    (register {} 1 ({} : RegState) c7m1).isOk = true ∧
    (register {} 2 c7st1 c7m2).isOk = true ∧
    (alistGet c7st1.workers "w").bind (fun m => m.registered_at) = some 1 ∧
    (alistGet c7st2.workers "w").bind (fun m => m.registered_at) = some 2 ∧
    (alistGet c7st2.workers "w").map (fun m => m.worker_name)
      = some "Worker v2" := by
  decide

/-- Witness for C7 (amended) at the concrete re-registration. -/
theorem c7_register_last_write_wins_witness :
    ((register {} 2 c7st1 c7m2).toOption.map
      (fun p => p.2.registered_at)) = some (some 2) ∧
    ((register {} 2 c7st1 c7m2).toOption.map
      (fun p => p.2.worker_name)) = some "Worker v2" := by
  obtain ⟨p, hp⟩ : ∃ p, register {} 2 c7st1 c7m2 = .ok p := ⟨_, rfl⟩
  have h := c7_register_last_write_wins {} 2 c7st1 c7m2 p.1 p.2 (by rw [hp])
  rw [hp]
  refine ⟨?_, ?_⟩
  · show some p.2.registered_at = some (some 2)
    rw [h.2.1]
    rfl
  · show some p.2.worker_name = some "Worker v2"
    rw [h.2.2.2.1]
    rfl

/-- Helper: success of `mkPlan` is exactly the conjunction of the five
validator checks. -/
theorem mkPlan_isOk (md : PlanMetadata) (steps : List PlanStep)
    (refs : PlanReferences) :
    (mkPlan md steps refs).isOk = true ↔
      (md.plan_schema_version = "DG-PLAN-0001" ∧ (stepIds steps).Nodup ∧
        depsResolve steps = true ∧ isDag steps = true ∧
        trustSatisfied md.trust_policy.minimum_worker_tier steps = true) := by
  unfold mkPlan
  by_cases h1 : md.plan_schema_version = "DG-PLAN-0001" <;>
  by_cases h2 : (stepIds steps).Nodup <;>
  by_cases h3 : depsResolve steps = true <;>
  by_cases h4 : isDag steps = true <;>
  by_cases h5 : trustSatisfied md.trust_policy.minimum_worker_tier steps
      = true <;>
  simp [h1, h2, h3, h4, h5, Except.isOk, Except.toBool, bne_iff_ne]

/-- Helper: the value a successful `mkPlan` returns is the plan made of
its arguments. -/
theorem mkPlan_ok_val (md : PlanMetadata) (steps : List PlanStep)
    (refs : PlanReferences) (p : Plan)
    (hok : mkPlan md steps refs = .ok p) :
    p.metadata = md ∧ p.steps = steps ∧ p.references = refs := by
  unfold mkPlan at hok
  by_cases h1 : (md.plan_schema_version != "DG-PLAN-0001") = true
  · rw [if_pos h1] at hok; exact Except.noConfusion hok
  · rw [if_neg h1] at hok
    by_cases h2 : (!decide (stepIds steps).Nodup) = true
    · rw [if_pos h2] at hok; exact Except.noConfusion hok
    · rw [if_neg h2] at hok
      by_cases h3 : (!depsResolve steps) = true
      · rw [if_pos h3] at hok; exact Except.noConfusion hok
      · rw [if_neg h3] at hok
        by_cases h4 : (!isDag steps) = true
        · rw [if_pos h4] at hok; exact Except.noConfusion hok
        · rw [if_neg h4] at hok
          by_cases h5 : (!trustSatisfied
              md.trust_policy.minimum_worker_tier steps) = true
          · rw [if_pos h5] at hok; exact Except.noConfusion hok
          · rw [if_neg h5] at hok
            cases hok
            exact ⟨rfl, rfl, rfl⟩

/-- Helper: elementwise reading of the validator's trust check. -/
theorem trustSatisfied_iff (minTier : TrustTier) (steps : List PlanStep) :
    trustSatisfied minTier steps = true ↔
      ∀ s ∈ steps, ∀ t, s.trust = some t →
        ∀ v, t.verified_tier = some v → ¬ v < minTier := by
  unfold trustSatisfied
  rw [List.all_eq_true]
  constructor
  · intro h s hs t ht v hv
    have hx := h s hs
    simp only [ht, hv] at hx
    simpa using hx
  · intro h s hs
    rcases hts : s.trust with _ | t
    · simp
    · rcases htv : t.verified_tier with _ | v
      · simp [htv]
      · simpa [htv] using h s hs t hts v htv

/-- C2 (amended): the validator's trust check consults only steps whose
trust snapshot carries a non-null `verified_tier`: construction succeeds
only if every such tier is ≥ the plan's minimum tier, construction fails
whenever some such tier is below the minimum, and steps whose
`verified_tier` is null never contribute a trust failure — in
particular `declared_tier` is never consulted, so a step with null
`verified_tier` and `declared_tier` below the minimum does not fail
construction. -/
theorem c2_trust_validation (md : PlanMetadata) (steps : List PlanStep)
    (refs : PlanReferences) :
    ((mkPlan md steps refs).isOk = true →
      ∀ s ∈ steps, ∀ t, s.trust = some t →
        ∀ v, t.verified_tier = some v →
          md.trust_policy.minimum_worker_tier ≤ v)
    ∧ ((∃ s ∈ steps, ∃ t, s.trust = some t ∧
          ∃ v, t.verified_tier = some v ∧
            v < md.trust_policy.minimum_worker_tier) →
        (mkPlan md steps refs).isOk = false)
    ∧ ((∀ s ∈ steps, ∀ t, s.trust = some t → t.verified_tier = none) →
        trustSatisfied md.trust_policy.minimum_worker_tier steps = true) := by
  refine ⟨?_, ?_, ?_⟩
  · intro hok s hs t ht v hv
    have hts := ((mkPlan_isOk md steps refs).mp hok).2.2.2.2
    have := (trustSatisfied_iff _ _).mp hts s hs t ht v hv
    exact Nat.le_of_not_lt this
  · intro hviol
    obtain ⟨s, hs, t, ht, v, hv, hlt⟩ := hviol
    cases hok : (mkPlan md steps refs).isOk with
    | false => rfl
    | true =>
      exfalso
      have hts := ((mkPlan_isOk md steps refs).mp hok).2.2.2.2
      exact (trustSatisfied_iff _ _).mp hts s hs t ht v hv hlt
  · intro hnone
    rw [trustSatisfied_iff]
    intro s hs t ht v hv
    rw [hnone s hs t ht] at hv
    exact Option.noConfusion hv

/-- Metadata used by the C2 counterexample: minimum worker tier
`verified`. -/
def c2md : PlanMetadata :=
  { plan_id := "plan-1", intent_summary := "test",
    trust_policy := { minimum_worker_tier := .verified } }

/-- Step used by the C2 counterexample: trust with null verified tier
and declared tier `untrusted`, below the plan minimum. -/
def c2step : PlanStep :=
  { step_id := "step-1", step_type := .escalate,
    reason := some .no_capable_workers,
    message := some "no workers",
    trust := some { declared_tier := .untrusted, verified_tier := none } }

/-- C2 counterexample: a plan whose only step carries trust with
`verified_tier` null and `declared_tier` strictly below the minimum
tier is constructed successfully — the claim says construction must
fail for it. -/
theorem c2_counterexample :
    (mkPlanStep c2step).isOk = true ∧
    (mkPlan c2md [c2step] {}).isOk = true ∧
    c2step.trust =
      some { declared_tier := .untrusted, verified_tier := none } ∧
    TrustTier.untrusted < c2md.trust_policy.minimum_worker_tier := by
  refine ⟨by decide, by decide, rfl, by decide⟩

/-- A step with verified tier `trusted` (passes the check). -/
def c2stepHigh : PlanStep :=
  { step_id := "step-1", step_type := .escalate,
    reason := some .no_capable_workers, message := some "m",
    trust := some { declared_tier := .trusted,
                    verified_tier := some .trusted } }

/-- A step with verified tier `untrusted` (fails the check). -/
def c2stepLow : PlanStep :=
  { step_id := "step-1", step_type := .escalate,
    reason := some .no_capable_workers, message := some "m",
    trust := some { declared_tier := .untrusted,
                    verified_tier := some .untrusted } }

/-- Witness for C2 (amended), applying all three clauses at concrete
plans: a step with verified tier `trusted` is accepted with tier ≥
minimum, one with verified tier `untrusted` is rejected, and the
null-verified-tier step passes the trust check. -/
theorem c2_trust_validation_witness :
    (TrustTier.verified ≤ TrustTier.trusted)
    ∧ (mkPlan c2md [c2stepLow] {}).isOk = false
    ∧ trustSatisfied c2md.trust_policy.minimum_worker_tier [c2step]
        = true := by
  refine ⟨?_, ?_, ?_⟩
  · exact (c2_trust_validation c2md [c2stepHigh] {}).1 (by decide)
      _ (List.mem_singleton.mpr rfl) _ rfl _ rfl
  · exact (c2_trust_validation c2md [c2stepLow] {}).2.1
      ⟨_, List.mem_singleton.mpr rfl, _, rfl, _, rfl, by decide⟩
  · exact (c2_trust_validation c2md [c2step] {}).2.2
      (by
        intro s hs t ht
        rw [List.mem_singleton] at hs
        subst hs
        cases ht
        rfl)

/-- Generic preservation lemma for accumulator folds that only ever
keep or extend the accumulator. -/
theorem foldl_mem_preserved {α β : Type} (f : List α → β → List α)
    (P : α → Prop)
    (hf : ∀ acc b, (∀ r ∈ acc, P r) → ∀ r ∈ f acc b, P r) :
    ∀ (l : List β) (acc : List α), (∀ r ∈ acc, P r) →
      ∀ r ∈ l.foldl f acc, P r := by
  intro l
  induction l with
  | nil => intro acc h; exact h
  | cons b t ih =>
    intro acc h
    exact ih _ (hf acc b h)

/-- C6 (amended): every result of `search` comes from a non-offline
worker, and — when a minimum tier is given — from a worker whose
Python-effective tier (`verified_tier or declared_tier`, falling back
both on null and on the falsy `untrusted` tier) is at least the
minimum. -/
theorem c6_search_filters (st : RegState) (query : String)
    (mt : Option TrustTier) (limit : Nat) :
    ∀ r ∈ search st query mt limit,
      r.availability.status ≠ .offline ∧
      ∀ m, mt = some m → m ≤ pyEffectiveTier r.trust := by
  intro r hr
  unfold search at hr
  dsimp only at hr
  replace hr := List.take_subset _ _ hr
  rw [List.mem_mergeSort] at hr
  refine foldl_mem_preserved _
    (fun x => x.availability.status ≠ .offline ∧
      ∀ m, mt = some m → m ≤ pyEffectiveTier x.trust)
    ?_ st.workers [] (by simp) r hr
  intro acc p h r' hr'
  split at hr'
  next hskip => exact h r' hr'
  next hskip =>
    split at hr'
    next hoff => exact h r' hr'
    next hoff =>
      split at hr' <;> split at hr' <;>
        first
          | exact h r' hr'
          | (rcases List.mem_append.mp hr' with h1 | h2
             · exact h r' h1
             · rw [List.mem_singleton] at h2
               subst h2
               refine ⟨by simpa using hoff, ?_⟩
               intro m hm
               subst hm
               have hnlt : ¬ pyEffectiveTier p.2.trust < m := by
                 intro hlt
                 simp [hlt] at hskip
               exact Nat.le_of_not_lt hnlt)

/-- The specification's reading of the effective tier: verified tier if
non-null, else declared tier. -/
def claimEffectiveTier (t : TrustInfo) : TrustTier :=
  t.verified_tier.getD t.declared_tier

/-- Worker for the C6 counterexample: verified tier `untrusted` (falsy)
with declared tier `trusted`. -/
def c6worker : WorkerManifest :=
  { worker_id := "w", worker_name := "W",
    trust := { declared_tier := .trusted, verified_tier := some .untrusted },
    capabilities := [{ tool_name := "t", description := "d" }] }

/-- Registry state holding `c6worker`, reached by a real registration. -/
def c6st : RegState :=
  ((register {} 0 {} c6worker).toOption.map (fun p => p.1)).getD {}

/-- C6 counterexample: with minimum tier `verified`, `search` returns
the worker whose effective tier in the claim's sense (verified tier if
non-null, else declared) is `untrusted` — strictly below the minimum —
because the code's `or` falls back to the declared `trusted` tier on
the falsy `untrusted` value. -/
theorem c6_counterexample :
    ((search c6st "t" (some TrustTier.verified) 10).map
      (fun r => r.worker_id)) = ["w"] ∧
    ((search c6st "t" (some TrustTier.verified) 10).map
      (fun r => claimEffectiveTier r.trust)) = [TrustTier.untrusted] ∧
    TrustTier.untrusted < TrustTier.verified := by
  refine ⟨by decide, by decide, by decide⟩

/-- Witness for C6 (amended) on the counterexample state: the returned
worker is not offline and its Python-effective tier is at least the
requested minimum. -/
theorem c6_search_filters_witness :
    ∃ r ∈ search c6st "t" (some TrustTier.verified) 10,
      r.availability.status ≠ .offline ∧
      TrustTier.verified ≤ pyEffectiveTier r.trust := by
  obtain ⟨r, hr⟩ : ∃ r, r ∈ search c6st "t" (some TrustTier.verified) 10 := by
    have hlen : (search c6st "t" (some TrustTier.verified) 10).length = 1 := by
      decide
    cases hsr : search c6st "t" (some TrustTier.verified) 10 with
    | nil => rw [hsr] at hlen; exact absurd hlen (by decide)
    | cons a t => exact ⟨a, by simp [hsr]⟩
  have h := c6_search_filters c6st "t" (some TrustTier.verified) 10 r hr
  exact ⟨r, hr, h.1, h.2 _ rfl⟩

/-- Helper: trust verification always leaves a non-null verified tier
(honor-system assignment fills it in, the Phase-4 override sets it to
`sandbox`). -/
theorem verifiedTrustResult_verified_ne_none (settings : Settings)
    (t : TrustInfo) :
    (verifiedTrustResult settings t).verified_tier ≠ none := by
  unfold verifiedTrustResult
  by_cases h1 : t.verified_tier.isNone = true
  <;> by_cases h2 : (settings.require_signatures_production
      && decide (TrustTier.verified ≤ t.declared_tier)
      && pyStrFalsy t.signature) = true
  <;> simp [h1, h2]
  intro hnone
  rw [hnone] at h1
  simp at h1

/-- Helper: every entry of `alistSet l k v` is either the stored pair
or an original entry. -/
theorem alistSet_mem {α : Type} (l : List (String × α)) (k : String)
    (v : α) (p : String × α) (hp : p ∈ alistSet l k v) :
    p = (k, v) ∨ p ∈ l := by
  unfold alistSet at hp
  by_cases h : l.any (fun q => q.1 == k)
  · rw [if_pos h] at hp
    rcases List.mem_map.mp hp with ⟨q, hq, hqe⟩
    by_cases hqk : (q.1 == k) = true
    · left
      rw [if_pos hqk] at hqe
      exact hqe.symm
    · right
      rw [if_neg hqk] at hqe
      exact hqe ▸ hq
  · rw [if_neg h] at hp
    rcases List.mem_append.mp hp with h1 | h2
    · right; exact h1
    · left; simpa using h2

/-- Helper: a successful association lookup comes from a list entry. -/
theorem alistGet_mem {α : Type} (l : List (String × α)) (k : String)
    (v : α) (h : alistGet l k = some v) : ∃ p ∈ l, p.2 = v := by
  unfold alistGet at h
  cases hf : l.find? (fun p => p.1 == k) with
  | none => rw [hf] at h; exact Option.noConfusion h
  | some q =>
    rw [hf] at h
    exact ⟨q, List.mem_of_find?_eq_some hf, by simpa using h⟩

/-- The registry invariant of C10: every stored manifest has a non-null
verified tier. -/
def RegInv (st : RegState) : Prop :=
  ∀ p ∈ st.workers, p.2.trust.verified_tier ≠ none

/-- C10 (amended): every successful `register` stores a manifest with a
non-null verified tier and preserves the invariant; `unregister` and
`update_worker_status` preserve it (queries never mutate state); and
the trust comparisons of `search` / `match_intent` /
`get_worker_for_tool` use the stored verified tier whenever it is
non-null and not `untrusted` — for a stored verified tier of
`untrusted` (value 0, falsy) the Python `or` falls back to
`declared_tier` instead. -/
theorem c10_registry_verified_tier_invariant :
    (∀ (settings : Settings) (now : Nat) (st : RegState)
        (m : WorkerManifest) (st2 : RegState) (m2 : WorkerManifest),
      register settings now st m = .ok (st2, m2) →
      RegInv st → RegInv st2)
    ∧ (∀ st wid, RegInv st → RegInv (unregister st wid).1)
    ∧ (∀ now st wid av, RegInv st →
        RegInv (updateWorkerStatus now st wid av).1)
    ∧ (∀ t v, t.verified_tier = some v → v ≠ .untrusted →
        pyEffectiveTier t = v) := by
  refine ⟨?_, ?_, ?_, ?_⟩
  · intro settings now st m st2 m2 hok hinv
    unfold register at hok
    dsimp only [] at hok
    cases hv : verifyTrust settings
        { m with registered_at := some (m.registered_at.getD now),
                 last_seen := some now } with
    | error e => rw [hv] at hok; exact Except.noConfusion hok
    | ok mv =>
      rw [hv] at hok
      simp only [Except.ok.injEq, Prod.mk.injEq] at hok
      obtain ⟨hst, hm⟩ := hok
      have hmv := verifyTrust_ok_eq _ _ _ hv
      intro p hp
      rw [← hst, addToIndexes_workers] at hp
      have hp2 : p ∈ alistSet
          (match alistGet st.workers mv.worker_id with
            | some old => removeFromIndexes st old
            | none => st).workers mv.worker_id mv := hp
      rcases alistSet_mem _ _ _ _ hp2 with he | hold
      · rw [he]
        rw [hmv]
        exact verifiedTrustResult_verified_ne_none settings _
      · have hw : (match alistGet st.workers mv.worker_id with
            | some old => removeFromIndexes st old
            | none => st).workers = st.workers := by
          cases alistGet st.workers mv.worker_id with
          | none => rfl
          | some old => exact removeFromIndexes_workers st old
        rw [hw] at hold
        exact hinv p hold
  · intro st wid hinv
    unfold unregister
    cases hg : alistGet st.workers wid with
    | none => exact hinv
    | some m =>
      intro p hp
      rw [removeFromIndexes_workers] at hp
      exact hinv p (List.mem_of_mem_filter hp)
  · intro now st wid av hinv
    unfold updateWorkerStatus
    cases hg : alistGet st.workers wid with
    | none => exact hinv
    | some m =>
      intro p hp
      rcases alistSet_mem _ _ _ _ hp with he | hold
      · rw [he]
        obtain ⟨q, hq, hqv⟩ := alistGet_mem _ _ _ hg
        have := hinv q hq
        rw [hqv] at this
        exact this
      · exact hinv p hold
  · intro t v hv hne
    unfold pyEffectiveTier
    rw [hv]
    simp [hne]

/-- C10 counterexample: a reachable registry state stores a worker with
verified tier `untrusted` (non-null); the search-time comparison then
uses the declared `trusted` tier — the worker passes a `verified`
minimum-tier filter — so the comparison falls back to `declared_tier`
for a registered worker, refuting the claim's final clause. -/
theorem c10_counterexample :
    (alistGet c6st.workers "w").map (fun m => m.trust.verified_tier)
      = some (some TrustTier.untrusted) ∧
    (alistGet c6st.workers "w").map (fun m => pyEffectiveTier m.trust)
      = some TrustTier.trusted ∧
    ((search c6st "t" (some TrustTier.verified) 10).map
      (fun r => r.worker_id)) = ["w"] := by
  refine ⟨by decide, by decide, by decide⟩

/-- Witness for C10 (amended): the non-untrusted clause at a concrete
trust record, and the register-invariant clause at the concrete first
registration of the C7 development. -/
theorem c10_registry_verified_tier_invariant_witness :
    pyEffectiveTier { declared_tier := .untrusted,
                      verified_tier := some .sandbox } = .sandbox
    ∧ RegInv c7st1 := by
  constructor
  · exact c10_registry_verified_tier_invariant.2.2.2
      { declared_tier := .untrusted, verified_tier := some .sandbox }
      .sandbox rfl (by decide)
  · obtain ⟨p, hp⟩ : ∃ p, register {} 1 {} c7m1 = .ok p := ⟨_, rfl⟩
    have hst : c7st1 = p.1 := by
      unfold c7st1
      rw [hp]
      rfl
    rw [hst]
    exact c10_registry_verified_tier_invariant.1 {} 1 {} c7m1 p.1 p.2
      (by rw [hp]) (by intro q hq; simp [RegState.workers] at hq)

/-- C3: when the intent matches no registered worker, `create_plan`
returns — without raising and without a plan — the
`requires_escalation` response with reason `no_capable_workers` when
escalation is allowed, and the `planning_failed` response with the
non-empty error code `NO_CAPABLE_WORKERS` when it is not. -/
theorem c3_no_workers_response (settings : Settings) (gen : Nat → String)
    (pid : String) (st : RegState) (req : PlanRequest)
    (h : matchIntent st req.intent.content none
      (some req.planning_options.trust_policy) = []) :
    (req.planning_options.allow_escalation = true →
      (createPlan settings gen pid st req).status = "requires_escalation" ∧
      (createPlan settings gen pid st req).reason
        = some "no_capable_workers" ∧
      (createPlan settings gen pid st req).plan = none)
    ∧ (req.planning_options.allow_escalation = false →
      (createPlan settings gen pid st req).status = "planning_failed" ∧
      (createPlan settings gen pid st req).error_code
        = some "NO_CAPABLE_WORKERS" ∧
      ("NO_CAPABLE_WORKERS" : String) ≠ "" ∧
      (createPlan settings gen pid st req).plan = none) := by
  constructor
  · intro hesc
    unfold createPlan
    dsimp only []
    rw [h]
    simp [hesc, escalationResponse, EscalationReason.value]
  · intro hesc
    unfold createPlan
    dsimp only []
    rw [h]
    simp [hesc]

/-- Request used in the C3 witness: `"process invoice"` with escalation
allowed. -/
def c3reqEsc : PlanRequest :=
  { intent := { content := "process invoice" } }

/-- Request used in the C3 witness: the same intent with escalation
disabled. -/
def c3reqNoEsc : PlanRequest :=
  { intent := { content := "process invoice" },
    planning_options := { allow_escalation := false } }

/-- Witness for C3: the intent `"process invoice"` against the empty
registry, with escalation allowed and disallowed. -/
theorem c3_no_workers_response_witness :
    ((createPlan {} (fun _ => "sid") "pid" {} c3reqEsc).status
        = "requires_escalation" ∧
      (createPlan {} (fun _ => "sid") "pid" {} c3reqEsc).reason
        = some "no_capable_workers" ∧
      (createPlan {} (fun _ => "sid") "pid" {} c3reqEsc).plan = none)
    ∧ ((createPlan {} (fun _ => "sid") "pid" {} c3reqNoEsc).status
        = "planning_failed" ∧
      (createPlan {} (fun _ => "sid") "pid" {} c3reqNoEsc).error_code
        = some "NO_CAPABLE_WORKERS" ∧
      ("NO_CAPABLE_WORKERS" : String) ≠ "" ∧
      (createPlan {} (fun _ => "sid") "pid" {} c3reqNoEsc).plan = none) := by
  constructor
  · exact (c3_no_workers_response {} (fun _ => "sid") "pid" {} c3reqEsc
      (by decide)).1 rfl
  · exact (c3_no_workers_response {} (fun _ => "sid") "pid" {} c3reqNoEsc
      (by decide)).2 rfl

/-- Helper: a step that passes its constructor validation is returned
unchanged. -/
theorem mkPlanStep_ok_val (s s2 : PlanStep) (h : mkPlanStep s = .ok s2) :
    s2 = s := by
  unfold mkPlanStep at h
  split at h <;> split at h <;>
    first
      | exact Except.noConfusion h
      | (cases h; rfl)

/-- The subtasks of a complex plan that resolve to a worker: their own
match is non-empty, or the top-level worker set is non-empty. -/
def resolvedSubtasks (st : RegState) (tp : TrustPolicy)
    (workers : List WorkerSearchResult) (subtasks : List Subtask) :
    List Subtask :=
  subtasks.filter
    (fun sub => !(matchIntent st sub.description none (some tp)).isEmpty
      || !workers.isEmpty)

/-- Helper: filtering an enumeration by a predicate on the items keeps
as many entries as filtering the items. -/
theorem length_filter_enumFrom {α : Type} (P : α → Bool) :
    ∀ (n : Nat) (l : List α),
      ((List.enumFrom n l).filter (fun q => P q.2)).length
        = (l.filter P).length := by
  intro n l
  induction l generalizing n with
  | nil => rfl
  | cons a t ih =>
    rw [List.enumFrom_cons]
    by_cases hp : P a
    <;> simp [List.filter_cons, hp, ih]

/-- Helper: the worker choice of the complex-plan loop succeeds exactly
when the subtask match or the top-level worker set is non-empty. -/
theorem chooseWorker_some (mi workers : List WorkerSearchResult)
    (h : (!mi.isEmpty || !workers.isEmpty) = true) :
    ∃ w, chooseWorker mi workers = some w := by
  cases mi with
  | cons w ws => exact ⟨w, rfl⟩
  | nil =>
    cases workers with
    | cons w ws => exact ⟨w, rfl⟩
    | nil => simp at h

/-- Helper: the worker choice fails exactly when both sets are empty. -/
theorem chooseWorker_none (mi workers : List WorkerSearchResult)
    (h : ¬ (!mi.isEmpty || !workers.isEmpty) = true) :
    chooseWorker mi workers = none := by
  cases mi with
  | cons w ws => simp at h
  | nil =>
    cases workers with
    | cons w ws => simp at h
    | nil => rfl

/-- Helper: what a successful run of the complex-plan loop appends to
the accumulator: one `queue_execution` step per resolved subtask, with
the collected id list being exactly the new steps' ids. -/
theorem complexFold_ok (gen : Nat → String) (st : RegState)
    (tp : TrustPolicy) (workers : List WorkerSearchResult) :
    ∀ (l : List (Nat × Subtask)) (acc acc2 : Nat × List PlanStep × List String),
      l.foldlM (complexFoldStep gen st tp workers) acc = .ok acc2 →
      ∃ newSteps : List PlanStep,
        acc2.2.1 = acc.2.1 ++ newSteps ∧
        acc2.2.2 = acc.2.2 ++ newSteps.map (fun s => s.step_id) ∧
        newSteps.length = (l.filter
          (fun q => !(matchIntent st q.2.description none (some tp)).isEmpty
            || !workers.isEmpty)).length ∧
        (∀ s ∈ newSteps, s.step_type = .queue_execution) := by
  intro l
  induction l with
  | nil =>
    intro acc acc2 h
    cases h
    exact ⟨[], by simp, by simp, rfl, by simp⟩
  | cons q t ih =>
    intro acc acc2 h
    rw [List.foldlM_cons] at h
    cases hstep : complexFoldStep gen st tp workers acc q with
    | error e =>
      rw [hstep] at h
      exact Except.noConfusion h
    | ok acc1 =>
      rw [hstep] at h
      replace h : t.foldlM (complexFoldStep gen st tp workers) acc1
          = .ok acc2 := h
      unfold complexFoldStep at hstep
      dsimp only [] at hstep
      by_cases hres : (!(matchIntent st q.2.description none
          (some tp)).isEmpty || !workers.isEmpty) = true
      · -- resolved: some worker was chosen
        obtain ⟨w, hw⟩ := chooseWorker_some
          (matchIntent st q.2.description none (some tp)) workers hres
        rw [hw] at hstep
        dsimp only [] at hstep
        cases hmk : mkPlanStep
            { step_id := gen acc.1,
              step_type := .queue_execution,
              worker_id := some w.worker_id,
              tool_name := some
                (match w.matched_capabilities with
                 | [] => q.2.task_type
                 | t :: _ => t),
              parameters := q.2.params,
              trust := some (((alistGet st.workers w.worker_id).map
                (fun m => m.trust)).getD w.trust),
              output_binding := some ("subtask_" ++ toString q.1 ++ "_result"),
              timeout_seconds := some q.2.timeout } with
        | error e =>
          rw [hmk] at hstep
          exact Except.noConfusion hstep
        | ok s =>
          rw [hmk] at hstep
          have hs := mkPlanStep_ok_val _ _ hmk
          cases hstep
          obtain ⟨newSteps, h1, h2, h3, h4⟩ := ih _ acc2 h
          refine ⟨s :: newSteps, ?_, ?_, ?_, ?_⟩
          · rw [h1]
            simp
          · rw [h2, hs]
            simp
          · rw [List.filter_cons, if_pos hres]
            simp [h3]
          · intro x hx
            rcases List.mem_cons.mp hx with hx1 | hx2
            · rw [hx1, hs]
            · exact h4 x hx2
      · -- not resolved: the step kept the accumulator
        rw [chooseWorker_none
          (matchIntent st q.2.description none (some tp)) workers hres]
          at hstep
        dsimp only [] at hstep
        cases hstep
        obtain ⟨newSteps, h1, h2, h3, h4⟩ := ih _ acc2 h
        refine ⟨newSteps, h1, h2, ?_, h4⟩
        rw [List.filter_cons, if_neg (by simpa using hres)]
        exact h3

/-- Helper: inversion of a successful `Except` bind. -/
theorem exceptBind_ok {ε α β : Type} (x : Except ε α) (f : α → Except ε β)
    (b : β) (h : (x >>= f) = .ok b) : ∃ a, x = .ok a ∧ f a = .ok b := by
  cases x with
  | error e => simp [Bind.bind, Except.bind] at h
  | ok a => exact ⟨a, rfl, by simpa [Bind.bind, Except.bind] using h⟩

/-- C8: every plan produced by `_create_complex_plan` has the claimed
shape: a single escalate step with reason `no_capable_workers` when no
subtask resolves to a worker; otherwise one `queue_execution` step per
resolved subtask followed by exactly one `wait_for` step (timeout 900s)
depending on all execution step ids and exactly one `aggregate` step
depending on the wait step; and the metadata carries confidence 0.7 and
estimated cost 50 × the number of subtasks. -/
theorem c8_complex_plan_shape (settings : Settings) (gen : Nat → String)
    (pid : String) (st : RegState) (req : PlanRequest) (task_type : String)
    (workers : List WorkerSearchResult) (scope : PlanScope) (p : Plan)
    (hok : createComplexPlan settings gen pid st req task_type workers scope
      = .ok p) :
    (resolvedSubtasks st req.planning_options.trust_policy workers
        (splitIntoSubtasks req.intent.content task_type) = [] →
      ∃ s, p.steps = [s] ∧ s.step_type = .escalate ∧
        s.reason = some .no_capable_workers)
    ∧ (resolvedSubtasks st req.planning_options.trust_policy workers
        (splitIntoSubtasks req.intent.content task_type) ≠ [] →
      ∃ execSteps waitStep aggStep,
        p.steps = execSteps ++ [waitStep, aggStep] ∧
        execSteps.length = (resolvedSubtasks st
          req.planning_options.trust_policy workers
          (splitIntoSubtasks req.intent.content task_type)).length ∧
        (∀ s ∈ execSteps, s.step_type = .queue_execution) ∧
        waitStep.step_type = .wait_for ∧
        waitStep.depends_on = execSteps.map (fun s => s.step_id) ∧
        waitStep.timeout_seconds = some 900 ∧
        aggStep.step_type = .aggregate ∧
        aggStep.depends_on = [waitStep.step_id])
    ∧ p.metadata.confidence = 7/10
    ∧ p.metadata.estimated_cost_units
        = some ((splitIntoSubtasks req.intent.content task_type).length * 50)
    := by
  unfold createComplexPlan at hok
  dsimp only [] at hok
  obtain ⟨acc, hacc, hok2⟩ := exceptBind_ok _ _ _ hok
  obtain ⟨newSteps, hn1, hn2, hn3, hn4⟩ :=
    complexFold_ok gen st req.planning_options.trust_policy workers _ _ _ hacc
  rw [List.nil_append] at hn1 hn2
  have hres_len : (resolvedSubtasks st req.planning_options.trust_policy
      workers (splitIntoSubtasks req.intent.content task_type)).length
      = newSteps.length := by
    rw [hn3, resolvedSubtasks]
    exact (length_filter_enumFrom _ 0 _).symm
  by_cases hempty : acc.2.2.isEmpty = true
  · -- degenerate escalate branch
    rw [if_pos hempty] at hok2
    obtain ⟨s, hmk, hrest⟩ := exceptBind_ok _ _ _ hok2
    obtain ⟨y, hy, hok3⟩ := exceptBind_ok _ _ _ hrest
    cases hy
    have hs := mkPlanStep_ok_val _ _ hmk
    have hmk3 := mkPlan_ok_val _ _ _ _ hok3
    have hnil : newSteps = [] := by
      have hmap : newSteps.map (fun s => s.step_id) = [] := by
        rw [← hn2]
        exact List.isEmpty_iff.mp hempty
      exact List.map_eq_nil_iff.mp hmap
    refine ⟨?_, ?_, ?_, ?_⟩
    · intro _
      refine ⟨s, ?_, ?_, ?_⟩
      · rw [hmk3.2.1, hn1, hnil]
        rfl
      · rw [hs]
      · rw [hs]
    · intro hne
      exfalso
      apply hne
      rw [← List.length_eq_zero, hres_len, hnil]
      rfl
    · rw [hmk3.1]
    · rw [hmk3.1]
  · -- wait + aggregate branch
    rw [if_neg hempty] at hok2
    obtain ⟨w, hmkw, hrest⟩ := exceptBind_ok _ _ _ hok2
    obtain ⟨a, hmka, hrest2⟩ := exceptBind_ok _ _ _ hrest
    obtain ⟨y, hy, hok3⟩ := exceptBind_ok _ _ _ hrest2
    cases hy
    have hw := mkPlanStep_ok_val _ _ hmkw
    have ha := mkPlanStep_ok_val _ _ hmka
    have hmk3 := mkPlan_ok_val _ _ _ _ hok3
    have hnnil : newSteps ≠ [] := by
      intro hnil
      apply hempty
      rw [hn2, hnil]
      rfl
    refine ⟨?_, ?_, ?_, ?_⟩
    · intro hres
      exfalso
      apply hnnil
      rw [← List.length_eq_zero, ← hres_len, hres]
      rfl
    · intro _
      refine ⟨newSteps, w, a, ?_, hres_len.symm, hn4, ?_, ?_, ?_, ?_, ?_⟩
      · rw [hmk3.2.1, hn1]
      · rw [hw]
      · rw [hw]
        show acc.2.2 = newSteps.map (fun s => s.step_id)
        exact hn2
      · rw [hw]
      · rw [ha]
      · rw [ha, hw]
    · rw [hmk3.1]
    · rw [hmk3.1]

/-- Witness for C8: the complex-plan builder against the empty registry
and an empty worker set degenerates to a single escalate step with
reason `no_capable_workers`, confidence 0.7 and cost 50 × 2 subtasks. -/
theorem c8_complex_plan_shape_witness :
    ∃ p, createComplexPlan {} (fun n => "step-" ++ toString n) "plan-1"
        {} c3reqEsc "generic" [] .single_task = .ok p
      ∧ (∃ s, p.steps = [s] ∧ s.step_type = .escalate ∧
          s.reason = some .no_capable_workers)
      ∧ p.metadata.confidence = 7/10
      ∧ p.metadata.estimated_cost_units
          = some ((splitIntoSubtasks "process invoice" "generic").length * 50)
    := by
  obtain ⟨p, hp⟩ : ∃ p, createComplexPlan {} (fun n => "step-" ++ toString n)
      "plan-1" {} c3reqEsc "generic" [] .single_task = .ok p := ⟨_, rfl⟩
  have h := c8_complex_plan_shape {} (fun n => "step-" ++ toString n)
    "plan-1" {} c3reqEsc "generic" [] .single_task p hp
  exact ⟨p, hp, h.1 (by rfl), h.2.2.1, h.2.2.2⟩

/-- Helper: the tag-overlap bonus lies in `[0.4, 0.8]`. -/
theorem tagBonus_bounds (t : Nat) :
    (0:ℚ) ≤ 4/10 + 1/10 * ((min t 4 : Nat) : ℚ) ∧
    (4:ℚ)/10 + 1/10 * ((min t 4 : Nat) : ℚ) ≤ 8/10 := by
  have h0 : (0:ℚ) ≤ ((min t 4 : Nat) : ℚ) := by positivity
  have h4 : ((min t 4 : Nat) : ℚ) ≤ 4 := by
    have := min_le_right t 4
    exact_mod_cast Nat.cast_le.mpr this
  constructor <;> linarith

/-- Helper: the word-overlap bonus lies in `[0.3, 0.6]`. -/
theorem ovBonus_bounds (o : Nat) :
    (0:ℚ) ≤ 3/10 + 1/10 * ((min o 3 : Nat) : ℚ) ∧
    (3:ℚ)/10 + 1/10 * ((min o 3 : Nat) : ℚ) ≤ 6/10 := by
  have h0 : (0:ℚ) ≤ ((min o 3 : Nat) : ℚ) := by positivity
  have h3 : ((min o 3 : Nat) : ℚ) ≤ 3 := by
    have := min_le_right o 3
    exact_mod_cast Nat.cast_le.mpr this
  constructor <;> linarith

/-- Helper: applying a bonus through `max` under a condition equals
taking `max` with the conditional bonus, for a nonnegative base. -/
theorem ite_max_eq (b : Prop) [Decidable b] (s t : ℚ) (hs : 0 ≤ s) :
    (if b then max s t else s) = max s (if b then t else 0) := by
  by_cases hb : b
  · simp [hb]
  · simp [hb, max_eq_left hs]

/-- Helper: an `elif` chain over decreasing constants is the maximum of
the conditional constants. -/
theorem elif_chain_eq (c1 c2 c3 : Prop) [Decidable c1] [Decidable c2]
    [Decidable c3] :
    (if c1 then (1:ℚ) else if c2 then 8/10 else if c3 then 6/10 else 0)
    = max (max (if c1 then (1:ℚ) else 0) (if c2 then 8/10 else 0))
        (if c3 then 6/10 else 0) := by
  by_cases h1 : c1 <;> by_cases h2 : c2 <;> by_cases h3 : c3 <;>
    norm_num [h1, h2, h3, max_def]

/-- Helper: the `elif` chain of `_calculate_capability_match` with the
two `max`-applied bonuses equals the specification's five-way maximum. -/
theorem score_elif_eq_max (c1 c2 c3 b4 b5 : Prop) [Decidable c1]
    [Decidable c2] [Decidable c3] [Decidable b4] [Decidable b5]
    (t4 t5 : ℚ) :
    (let s1 : ℚ := if c1 then 1 else if c2 then 8/10
      else if c3 then 6/10 else 0
     let s2 := if b4 then max s1 t4 else s1
     if b5 then max s2 t5 else s2)
    = max (max (max (max (if c1 then (1:ℚ) else 0)
        (if c2 then 8/10 else 0))
        (if c3 then 6/10 else 0))
        (if b4 then t4 else 0))
        (if b5 then t5 else 0) := by
  dsimp only []
  have hs1_nonneg : (0:ℚ) ≤ (if c1 then (1:ℚ) else if c2 then 8/10
      else if c3 then 6/10 else 0) := by
    split_ifs <;> norm_num
  rw [ite_max_eq b4 _ t4 hs1_nonneg,
    ite_max_eq b5 _ t5 (le_trans hs1_nonneg (le_max_left _ _)),
    elif_chain_eq c1 c2 c3]

/-- The specification's per-capability relevance score: the maximum of
the five match components (exact tool name, tool-name substring,
description substring, tag-overlap bonus, description word-overlap
bonus). -/
def specCapScore (queryLower : String) (queryWords : List String)
    (cap : WorkerCapability) : ℚ :=
  max (max (max (max
    (if queryLower = pyLower cap.tool_name then (1:ℚ) else 0)
    (if strSubstr queryLower (pyLower cap.tool_name) then 8/10 else 0))
    (if strSubstr queryLower (pyLower cap.description) then 6/10 else 0))
    (if ((cap.semantic_tags.filter
        (fun tag => queryWords.any (fun w => strSubstr w (pyLower tag)))).length)
        > 0
      then 4/10 + 1/10 * ((min ((cap.semantic_tags.filter
        (fun tag => queryWords.any
          (fun w => strSubstr w (pyLower tag)))).length) 4 : Nat) : ℚ)
      else 0))
    (if ((queryWords.filter
        (fun w => (pyWords (pyLower cap.description)).contains w)).length) > 0
      then 3/10 + 1/10 * ((min ((queryWords.filter
        (fun w => (pyWords
          (pyLower cap.description)).contains w)).length) 3 : Nat) : ℚ)
      else 0)

/-- Refinement: the source's `elif`-structured capability score equals
the specification's five-way maximum. -/
theorem calculateCapabilityMatch_eq_spec (queryLower : String)
    (queryWords : List String) (cap : WorkerCapability) :
    calculateCapabilityMatch queryLower queryWords cap
      = specCapScore queryLower queryWords cap := by
  unfold calculateCapabilityMatch specCapScore
  dsimp only []
  exact score_elif_eq_max _ _ _ _ _ _ _

/-- Helper: each specification component is nonnegative, hence so is
the score. -/
theorem specCapScore_nonneg (queryLower : String) (queryWords : List String)
    (cap : WorkerCapability) : 0 ≤ specCapScore queryLower queryWords cap := by
  unfold specCapScore
  refine le_trans ?_ (le_trans (le_max_left _ _) (le_trans (le_max_left _ _)
    (le_trans (le_max_left _ _) (le_max_left _ _))))
  split_ifs <;> norm_num

/-- Helper: each specification component is at most 1, hence so is the
score. -/
theorem specCapScore_le_one (queryLower : String) (queryWords : List String)
    (cap : WorkerCapability) : specCapScore queryLower queryWords cap ≤ 1 := by
  unfold specCapScore
  refine max_le (max_le (max_le (max_le ?_ ?_) ?_) ?_) ?_
  · split_ifs <;> norm_num
  · split_ifs <;> norm_num
  · split_ifs <;> norm_num
  · split_ifs with h
    · exact le_trans (tagBonus_bounds _).2 (by norm_num)
    · norm_num
  · split_ifs with h
    · exact le_trans (ovBonus_bounds _).2 (by norm_num)
    · norm_num

/-- Helper: without an exact (case-insensitive) tool-name match, the
specification score is at most 0.8. -/
theorem specCapScore_le_of_no_exact (queryLower : String)
    (queryWords : List String) (cap : WorkerCapability)
    (h : queryLower ≠ pyLower cap.tool_name) :
    specCapScore queryLower queryWords cap ≤ 8/10 := by
  unfold specCapScore
  refine max_le (max_le (max_le (max_le ?_ ?_) ?_) ?_) ?_
  · rw [if_neg h]
    norm_num
  · split_ifs <;> norm_num
  · split_ifs <;> norm_num
  · split_ifs with hb
    · exact (tagBonus_bounds _).2
    · norm_num
  · split_ifs with hb
    · exact le_trans (ovBonus_bounds _).2 (by norm_num)
    · norm_num

/-- Helper: an exact tool-name match forces specification score 1. -/
theorem specCapScore_eq_one_of_exact (queryLower : String)
    (queryWords : List String) (cap : WorkerCapability)
    (h : queryLower = pyLower cap.tool_name) :
    specCapScore queryLower queryWords cap = 1 := by
  apply le_antisymm (specCapScore_le_one _ _ _)
  unfold specCapScore
  refine le_trans ?_ (le_trans (le_max_left _ _) (le_trans (le_max_left _ _)
    (le_trans (le_max_left _ _) (le_max_left _ _))))
  rw [if_pos h]

/-- Helper: a max-fold is bounded by any bound on its base and
entries. -/
theorem foldl_max_le_of (f : WorkerCapability → ℚ) (c : ℚ) :
    ∀ (caps : List WorkerCapability) (b : ℚ), b ≤ c →
      (∀ x ∈ caps, f x ≤ c) →
      caps.foldl (fun a x => max a (f x)) b ≤ c := by
  intro caps
  induction caps with
  | nil => intro b hb _; exact hb
  | cons x t ih =>
    intro b hb hall
    rw [List.foldl_cons]
    exact ih _ (max_le hb (hall x (List.mem_cons_self _ _)))
      (fun y hy => hall y (List.mem_cons_of_mem _ hy))

/-- Helper: the base is below a max-fold. -/
theorem foldl_max_ge_base (f : WorkerCapability → ℚ) :
    ∀ (caps : List WorkerCapability) (b : ℚ),
      b ≤ caps.foldl (fun a x => max a (f x)) b := by
  intro caps
  induction caps with
  | nil => intro b; exact le_refl b
  | cons x t ih =>
    intro b
    rw [List.foldl_cons]
    exact le_trans (le_max_left _ _) (ih _)

/-- Helper: every entry is below a max-fold over a list containing
it. -/
theorem foldl_max_ge_mem (f : WorkerCapability → ℚ) :
    ∀ (caps : List WorkerCapability) (b : ℚ) (x : WorkerCapability),
      x ∈ caps → f x ≤ caps.foldl (fun a y => max a (f y)) b := by
  intro caps
  induction caps with
  | nil => intro b x hx; exact absurd hx (List.not_mem_nil x)
  | cons y t ih =>
    intro b x hx
    rw [List.foldl_cons]
    rcases List.mem_cons.mp hx with h1 | h2
    · subst h1
      exact le_trans (le_max_right _ _) (foldl_max_ge_base f t _)
    · exact ih _ x h2

/-- The specification's per-worker relevance: maximum of the
specification capability scores, floored at 0.5 when the query is a
substring of the worker's display name. -/
def specWorkerScore (query : String) (m : WorkerManifest) : ℚ :=
  let queryLower := pyLower query
  let queryWords := (pyWords queryLower).dedup
  let capMax := m.capabilities.foldl
    (fun acc cap => max acc (specCapScore queryLower queryWords cap)) 0
  if strSubstr queryLower (pyLower m.worker_name) then max capMax (1/2)
  else capMax

/-- Helper: the source's accumulate-and-collect capability fold computes
the same maximum as the specification fold (skipped zero scores do not
change a nonnegative maximum). -/
theorem capFold_eq (queryLower : String) (queryWords : List String) :
    ∀ (caps : List WorkerCapability) (q : ℚ × List String), 0 ≤ q.1 →
      (caps.foldl
        (fun (q : ℚ × List String) cap =>
          if calculateCapabilityMatch queryLower queryWords cap > 0 then
            (max q.1 (calculateCapabilityMatch queryLower queryWords cap),
             q.2 ++ [cap.tool_name])
          else q)
        q).1
      = caps.foldl
          (fun acc cap => max acc (specCapScore queryLower queryWords cap))
          q.1 := by
  intro caps
  induction caps with
  | nil => intro q hq; rfl
  | cons c t ih =>
    intro q hq
    rw [List.foldl_cons, List.foldl_cons]
    by_cases hc : calculateCapabilityMatch queryLower queryWords c > 0
    · rw [if_pos hc]
      have hih := ih
        (max q.1 (calculateCapabilityMatch queryLower queryWords c),
         q.2 ++ [c.tool_name])
        (le_trans hq (le_max_left _ _))
      rw [hih]
      rw [calculateCapabilityMatch_eq_spec]
    · rw [if_neg hc]
      have hc0 : calculateCapabilityMatch queryLower queryWords c = 0 := by
        apply le_antisymm (not_lt.mp hc)
        rw [calculateCapabilityMatch_eq_spec]
        exact specCapScore_nonneg _ _ _
      rw [ih q hq]
      have hbase : max q.1 (specCapScore queryLower queryWords c) = q.1 := by
        rw [← calculateCapabilityMatch_eq_spec, hc0]
        exact max_eq_left hq
      rw [hbase]

/-- Helper: the specification worker score is at most 1. -/
theorem specWorkerScore_le_one (query : String) (m : WorkerManifest) :
    specWorkerScore query m ≤ 1 := by
  unfold specWorkerScore
  dsimp only []
  have hfold : m.capabilities.foldl
      (fun acc cap => max acc (specCapScore (pyLower query)
        ((pyWords (pyLower query)).dedup) cap)) 0 ≤ 1 :=
    foldl_max_le_of _ 1 _ 0 (by norm_num)
      (fun x _ => specCapScore_le_one _ _ x)
  split_ifs with h
  · exact max_le hfold (by norm_num)
  · exact hfold

/-- Helper: with an exact tool-name match among the capabilities, the
specification worker score is exactly 1. -/
theorem specWorkerScore_eq_one_of_exact (query : String)
    (m : WorkerManifest)
    (h : ∃ cap ∈ m.capabilities, pyLower query = pyLower cap.tool_name) :
    specWorkerScore query m = 1 := by
  obtain ⟨cap, hmem, hexact⟩ := h
  apply le_antisymm (specWorkerScore_le_one _ _)
  have hone : (1:ℚ) ≤ m.capabilities.foldl
      (fun acc c => max acc (specCapScore (pyLower query)
        ((pyWords (pyLower query)).dedup) c)) 0 := by
    rw [← specCapScore_eq_one_of_exact (pyLower query)
      ((pyWords (pyLower query)).dedup) cap hexact]
    exact foldl_max_ge_mem _ _ _ cap hmem
  unfold specWorkerScore
  dsimp only []
  split_ifs with hname
  · exact le_trans hone (le_max_left _ _)
  · exact hone

/-- Helper: without any exact tool-name match, the specification worker
score stays strictly below 1 (at most 0.8). -/
theorem specWorkerScore_lt_one_of_no_exact (query : String)
    (m : WorkerManifest)
    (h : ∀ cap ∈ m.capabilities, pyLower query ≠ pyLower cap.tool_name) :
    specWorkerScore query m < 1 := by
  have hfold : m.capabilities.foldl
      (fun acc cap => max acc (specCapScore (pyLower query)
        ((pyWords (pyLower query)).dedup) cap)) 0 ≤ 8/10 :=
    foldl_max_le_of _ _ _ 0 (by norm_num)
      (fun x hx => specCapScore_le_of_no_exact _ _ x (h x hx))
  have : specWorkerScore query m ≤ 8/10 := by
    unfold specWorkerScore
    dsimp only []
    split_ifs with hname
    · exact max_le hfold (by norm_num)
    · exact hfold
  linarith

/-- Generic preservation lemma for accumulator folds, with access to the
fact that the folded elements come from the list. -/
theorem foldl_mem_preserved_of_mem {α β : Type} (P : α → Prop) :
    ∀ (l : List β) (f : List α → β → List α),
      (∀ acc b, b ∈ l → (∀ r ∈ acc, P r) → ∀ r ∈ f acc b, P r) →
      ∀ acc, (∀ r ∈ acc, P r) → ∀ r ∈ l.foldl f acc, P r := by
  intro l
  induction l with
  | nil =>
    intro f hf acc h r hr
    exact h r hr
  | cons b t ih =>
    intro f hf acc h
    rw [List.foldl_cons]
    exact ih f (fun acc2 b2 hb2 => hf acc2 b2 (List.mem_cons_of_mem _ hb2))
      (f acc b) (hf acc b (List.mem_cons_self _ _) h)

/-- C5: the relevance score of every `search` result equals the
specification's per-worker score (maximum over capabilities of the five
match components, floored at 0.5 on a worker-name substring match) and
is strictly positive (zero-score workers are omitted); results are
sorted by score descending (a strictly larger score never sits at a
later position); an exact tool-name match forces score exactly 1 while
a worker without an exact match — in particular one matched only via
tag overlap — scores strictly below 1, so the former ranks above the
latter. -/
theorem c5_search_scoring (st : RegState) (query : String)
    (mt : Option TrustTier) (limit : Nat) :
    (∀ r ∈ search st query mt limit,
      (∃ id m, (id, m) ∈ st.workers ∧ r.worker_id = id ∧
        r.relevance_score = specWorkerScore query m) ∧
      0 < r.relevance_score)
    ∧ (search st query mt limit).Pairwise
        (fun a b => b.relevance_score ≤ a.relevance_score)
    ∧ (∀ i j (hi : i < (search st query mt limit).length)
          (hj : j < (search st query mt limit).length),
        ((search st query mt limit).get ⟨i, hi⟩).relevance_score
            < ((search st query mt limit).get ⟨j, hj⟩).relevance_score →
          j < i)
    ∧ (∀ m : WorkerManifest,
        (∃ cap ∈ m.capabilities, pyLower query = pyLower cap.tool_name) →
        specWorkerScore query m = 1)
    ∧ (∀ m : WorkerManifest,
        (∀ cap ∈ m.capabilities, pyLower query ≠ pyLower cap.tool_name) →
        specWorkerScore query m < 1)
    ∧ (∀ i j (hi : i < (search st query mt limit).length)
          (hj : j < (search st query mt limit).length),
        ((search st query mt limit).get ⟨i, hi⟩).relevance_score = 1 →
        ((search st query mt limit).get ⟨j, hj⟩).relevance_score < 1 →
          i < j) := by
  have hpair : (search st query mt limit).Pairwise
      (fun a b => b.relevance_score ≤ a.relevance_score) := by
    unfold search
    dsimp only []
    apply List.Pairwise.sublist (List.take_sublist _ _)
    have hs := @List.sorted_mergeSort WorkerSearchResult
      (fun (a b : WorkerSearchResult) =>
        decide (b.relevance_score ≤ a.relevance_score))
      (fun a b c hab hbc =>
        decide_eq_true
          (le_trans (of_decide_eq_true hbc) (of_decide_eq_true hab)))
      (fun a b => by
        rcases le_total b.relevance_score a.relevance_score with h | h
        · simp [h]
        · simp [h])
    exact (hs _).imp (fun hab => of_decide_eq_true hab)
  have hpos : ∀ i j (hi : i < (search st query mt limit).length)
      (hj : j < (search st query mt limit).length),
      ((search st query mt limit).get ⟨i, hi⟩).relevance_score
          < ((search st query mt limit).get ⟨j, hj⟩).relevance_score →
        j < i := by
    intro i j hi hj hlt
    rcases lt_trichotomy i j with h | h | h
    · exfalso
      have hle := List.pairwise_iff_getElem.mp hpair i j hi hj h
      simp only [List.get_eq_getElem] at hlt
      exact absurd hlt (not_lt.mpr hle)
    · exfalso
      subst h
      exact lt_irrefl _ hlt
    · exact h
  refine ⟨?_, hpair, hpos, ?_, ?_, ?_⟩
  · intro r hr
    unfold search at hr
    dsimp only at hr
    replace hr := List.take_subset _ _ hr
    rw [List.mem_mergeSort] at hr
    refine foldl_mem_preserved_of_mem
      (fun x => (∃ id m, (id, m) ∈ st.workers ∧ x.worker_id = id ∧
        x.relevance_score = specWorkerScore query m) ∧
        0 < x.relevance_score)
      st.workers _ ?_ [] (by simp) r hr
    intro acc p hp h r2 hr2
    split at hr2
    next => exact h r2 hr2
    next =>
      split at hr2
      next => exact h r2 hr2
      next =>
        split at hr2
        next hname =>
          split at hr2
          next hsc =>
            rcases List.mem_append.mp hr2 with h1 | h2
            · exact h r2 h1
            · rw [List.mem_singleton] at h2
              subst h2
              constructor
              · refine ⟨p.1, p.2, by simpa using hp, rfl, ?_⟩
                unfold specWorkerScore
                dsimp only []
                rw [if_pos hname]
                rw [← capFold_eq (pyLower query)
                  ((pyWords (pyLower query)).dedup)
                  p.2.capabilities (0, []) (le_refl 0)]
                apply min_eq_right
                apply max_le
                · rw [capFold_eq (pyLower query)
                    ((pyWords (pyLower query)).dedup)
                    p.2.capabilities (0, []) (le_refl 0)]
                  exact foldl_max_le_of _ 1 _ 0 (by norm_num)
                    (fun x _ => specCapScore_le_one _ _ x)
                · norm_num
              · exact lt_min (by norm_num) hsc
          next hsc => exact h r2 hr2
        next hname =>
          split at hr2
          next hsc =>
            rcases List.mem_append.mp hr2 with h1 | h2
            · exact h r2 h1
            · rw [List.mem_singleton] at h2
              subst h2
              constructor
              · refine ⟨p.1, p.2, by simpa using hp, rfl, ?_⟩
                unfold specWorkerScore
                dsimp only []
                rw [if_neg hname]
                rw [← capFold_eq (pyLower query)
                  ((pyWords (pyLower query)).dedup)
                  p.2.capabilities (0, []) (le_refl 0)]
                apply min_eq_right
                rw [capFold_eq (pyLower query)
                  ((pyWords (pyLower query)).dedup)
                  p.2.capabilities (0, []) (le_refl 0)]
                exact foldl_max_le_of _ 1 _ 0 (by norm_num)
                  (fun x _ => specCapScore_le_one _ _ x)
              · exact lt_min (by norm_num) hsc
          next hsc => exact h r2 hr2
  · intro m hm
    exact specWorkerScore_eq_one_of_exact query m hm
  · intro m hm
    exact specWorkerScore_lt_one_of_no_exact query m hm
  · intro i j hi hj h1 hlt
    exact hpos j i hj hi (by rw [h1]; exact hlt)

/-- Worker with an exact tool-name match for the C5 witness. -/
def c5wA : WorkerManifest :=
  { worker_id := "wa", worker_name := "Exact Worker",
    trust := { declared_tier := .verified, verified_tier := some .verified },
    capabilities := [{ tool_name := "t", description := "does things" }] }

/-- The tag-only capability of the C5 witness. -/
def c5capB : WorkerCapability :=
  { tool_name := "x", description := "y", semantic_tags := ["tool"] }

/-- Worker matched only via tag overlap for the C5 witness. -/
def c5wB : WorkerManifest :=
  { worker_id := "wb", worker_name := "Tag Worker",
    trust := { declared_tier := .verified, verified_tier := some .verified },
    capabilities := [c5capB] }

/-- Two-worker registry state for the C5 witness. -/
def c5st : RegState := { workers := [("wa", c5wA), ("wb", c5wB)] }

/-- Witness for C5: searching the exact tool name `"t"` scores the
exact-match worker 1.0 and the tag-only worker 0.5, and ranks the
former first. -/
theorem c5_search_scoring_witness :
    ((search c5st "t" none 10).map (fun r => r.worker_id) = ["wa", "wb"])
    ∧ ((search c5st "t" none 10).map (fun r => r.relevance_score)
        = [1, 1/2])
    ∧ specWorkerScore "t" c5wA = 1
    ∧ specWorkerScore "t" c5wB < 1
    ∧ (0 : Nat) < 1 := by
  refine ⟨by decide, by decide, ?_, ?_, ?_⟩
  · exact (c5_search_scoring c5st "t" none 10).2.2.2.1 c5wA
      ⟨{ tool_name := "t", description := "does things" },
       by decide, by decide⟩
  · exact (c5_search_scoring c5st "t" none 10).2.2.2.2.1 c5wB
      (by
        intro cap hcap
        have hc := List.mem_singleton.mp (show cap ∈ [c5capB] from hcap)
        subst hc
        decide)
  · exact (c5_search_scoring c5st "t" none 10).2.2.2.2.2 0 1
      (by decide) (by decide) (by decide) (by decide)

/-!  ## C1: acyclicity, spec side, and correctness of the Kahn check

`noCycle` is the spec's wording of acyclicity ("the depends_on relation
contains no cycle"), stated declaratively; the theorems below relate it
to the source's Kahn implementation `isDag`. -/

/-- The `depends_on` list of the (first) step whose id is `x`; `[]` when
there is none.  Under unique step ids this is the step's dependency
list. -/
def depsOf (steps : List PlanStep) (x : String) : List String :=
  match steps.find? (fun s => s.step_id == x) with
  | some s => s.depends_on
  | none => []

/-- Spec-side dependency relation: `a` is listed in the `depends_on` of
a step whose id is `b`. -/
def depRel (steps : List PlanStep) (a b : String) : Prop :=
  ∃ s ∈ steps, s.step_id = b ∧ a ∈ s.depends_on

/-- Spec-side acyclicity: no nonempty `depends_on` path returns to its
starting node. -/
def noCycle (steps : List PlanStep) : Prop :=
  ∀ x, ¬ Relation.TransGen (depRel steps) x x

/-- Number of dependency entries of `x` that are not in the processed
list `P`. -/
def remDeg (steps : List PlanStep) (P : List String) (x : String) : Nat :=
  (depsOf steps x).countP (fun d => !(decide (d ∈ P)))

theorem depsOf_eq (steps : List PlanStep) (hN : (stepIds steps).Nodup)
    {s : PlanStep} (hs : s ∈ steps) : depsOf steps s.step_id = s.depends_on := by
  induction steps with
  | nil => cases hs
  | cons t rest ih =>
    have hN' : (stepIds rest).Nodup ∧ t.step_id ∉ stepIds rest := by
      rw [stepIds, List.map_cons] at hN
      exact ⟨(List.nodup_cons.mp hN).2, (List.nodup_cons.mp hN).1⟩
    rcases List.mem_cons.mp hs with h1 | h2
    · subst h1
      unfold depsOf
      rw [List.find?_cons_of_pos (p := fun (u : PlanStep) => u.step_id == s.step_id) _ (by simp)]
    · have hne : ¬(t.step_id == s.step_id) = true := by
        intro hbe
        exact hN'.2 (by
          rw [beq_iff_eq] at hbe
          rw [hbe, stepIds, List.mem_map]
          exact ⟨s, h2, rfl⟩)
      unfold depsOf
      rw [List.find?_cons_of_neg (p := fun (u : PlanStep) => u.step_id == s.step_id) _ hne]
      exact ih hN'.1 h2

theorem mem_stepIds_of_depsOf_ne (steps : List PlanStep) (x : String)
    (h : depsOf steps x ≠ []) : x ∈ stepIds steps := by
  unfold depsOf at h
  cases hf : steps.find? (fun s => s.step_id == x) with
  | none => rw [hf] at h; exact absurd rfl h
  | some s =>
    have hpred := List.find?_some hf
    rw [beq_iff_eq] at hpred
    rw [stepIds, List.mem_map]
    exact ⟨s, List.mem_of_find?_eq_some hf, hpred⟩

theorem depRel_iff (steps : List PlanStep) (hN : (stepIds steps).Nodup)
    (a b : String) :
    depRel steps a b ↔ b ∈ stepIds steps ∧ a ∈ depsOf steps b := by
  constructor
  · rintro ⟨s, hs, hid, ha⟩
    refine ⟨by rw [stepIds, List.mem_map]; exact ⟨s, hs, hid⟩, ?_⟩
    rw [← hid, depsOf_eq steps hN hs]
    exact ha
  · rintro ⟨hb, ha⟩
    rw [stepIds, List.mem_map] at hb
    obtain ⟨s, hs, hid⟩ := hb
    refine ⟨s, hs, hid, ?_⟩
    rw [← hid, depsOf_eq steps hN hs] at ha
    exact ha

theorem depsResolve_mem (steps : List PlanStep) (hR : depsResolve steps = true)
    {x d : String} (hd : d ∈ depsOf steps x) : d ∈ stepIds steps := by
  unfold depsOf at hd
  cases hf : steps.find? (fun s => s.step_id == x) with
  | none => rw [hf] at hd; cases hd
  | some s =>
    rw [hf] at hd
    have hs : s ∈ steps := List.mem_of_find?_eq_some hf
    unfold depsResolve at hR
    have h1 := (List.all_eq_true.mp hR) s hs
    have h2 := (List.all_eq_true.mp h1) d hd
    exact List.elem_iff.mp h2

theorem indegInner_apply (l : List String) (sid : String) (f : String → Int)
    (z : String) :
    (l.foldl (fun g _d => fun w => if w = sid then g w + 1 else g w) f) z
      = f z + if z = sid then (l.length : Int) else 0 := by
  induction l generalizing f with
  | nil => simp
  | cons a l ih =>
    simp only [List.foldl_cons]
    rw [ih]
    by_cases hz : z = sid
    · simp only [hz, if_pos rfl, List.length_cons]
      push_cast
      ring
    · simp [hz]

theorem filter_step_id_eq (steps : List PlanStep) (hN : (stepIds steps).Nodup)
    (z : String) :
    steps.filter (fun s => s.step_id == z)
      = match steps.find? (fun s => s.step_id == z) with
        | some s => [s]
        | none => [] := by
  induction steps with
  | nil => rfl
  | cons t rest ih =>
    have hN2 := List.nodup_cons.mp (by rw [stepIds, List.map_cons] at hN; exact hN)
    cases hbe : (t.step_id == z) with
    | true =>
      rw [List.filter_cons_of_pos (p := fun (u : PlanStep) => u.step_id == z) hbe,
        List.find?_cons_of_pos (p := fun (u : PlanStep) => u.step_id == z) _ hbe]
      have hrest : rest.filter (fun s => s.step_id == z) = [] := by
        rw [List.filter_eq_nil_iff]
        intro u hu hbu
        rw [beq_iff_eq] at hbe hbu
        exact hN2.1 (List.mem_map.mpr ⟨u, hu, by rw [hbu, ← hbe]⟩)
      rw [hrest]
    | false =>
      rw [List.filter_cons_of_neg (p := fun (u : PlanStep) => u.step_id == z) (by simp [hbe]),
        List.find?_cons_of_neg (p := fun (u : PlanStep) => u.step_id == z) _ (by simp [hbe])]
      exact ih hN2.2

theorem buildIndeg_apply (steps : List PlanStep) (hN : (stepIds steps).Nodup)
    (z : String) :
    buildIndeg steps z = ((depsOf steps z).length : Int) := by
  have haux : ∀ (l : List PlanStep) (f : String → Int),
      (l.foldl (fun f s =>
          s.depends_on.foldl
            (fun g _d => fun w => if w = s.step_id then g w + 1 else g w) f) f) z
        = f z + ((l.filter (fun s => s.step_id == z)).map
            (fun s => (s.depends_on.length : Int))).sum := by
    intro l
    induction l with
    | nil => intro f; simp
    | cons t rest ih =>
      intro f
      simp only [List.foldl_cons]
      rw [ih, indegInner_apply]
      cases hbe : (t.step_id == z) with
      | true =>
        rw [List.filter_cons_of_pos (p := fun (u : PlanStep) => u.step_id == z) hbe]
        rw [beq_iff_eq] at hbe
        simp only [List.map_cons, List.sum_cons]
        rw [if_pos hbe.symm]
        ring
      | false =>
        rw [List.filter_cons_of_neg (p := fun (u : PlanStep) => u.step_id == z) (by simp [hbe])]
        have hz : ¬ z = t.step_id := by
          intro hzz
          simp [hzz] at hbe
        rw [if_neg hz]
        ring
  have h1 := haux steps (fun _ => 0)
  rw [filter_step_id_eq steps hN z] at h1
  unfold buildIndeg
  rw [h1]
  unfold depsOf
  cases hf : steps.find? (fun s => s.step_id == z) <;> simp

theorem graphInner_apply (l : List String) (sid : String)
    (f : String → List String) (z : String) :
    (l.foldl (fun g d => fun w => if w = d then g w ++ [sid] else g w) f) z
      = f z ++ List.replicate (l.count z) sid := by
  induction l generalizing f with
  | nil => simp
  | cons a l ih =>
    simp only [List.foldl_cons]
    rw [ih]
    by_cases hz : z = a
    · subst hz
      rw [if_pos rfl, List.count_cons, if_pos (by simp), List.append_assoc]
      rfl
    · rw [if_neg hz, List.count_cons, if_neg (by simpa using fun h => hz h.symm),
        Nat.add_zero]

theorem count_buildGraph (steps : List PlanStep) (hN : (stepIds steps).Nodup)
    (z x : String) :
    (buildGraph steps z).count x = (depsOf steps x).count z := by
  have haux : ∀ (l : List PlanStep) (f : String → List String),
      (l.foldl (fun f s =>
          s.depends_on.foldl
            (fun g d => fun w => if w = d then g w ++ [s.step_id] else g w) f) f) z
        = f z ++ (l.map (fun s =>
            List.replicate (s.depends_on.count z) s.step_id)).flatten := by
    intro l
    induction l with
    | nil => intro f; simp
    | cons t rest ih =>
      intro f
      simp only [List.foldl_cons]
      rw [ih, graphInner_apply]
      simp [List.append_assoc]
  have hcnt : ∀ (l : List PlanStep),
      ((l.map (fun s => List.replicate (s.depends_on.count z) s.step_id)).flatten).count x
        = ((l.filter (fun s => s.step_id == x)).map
            (fun s => s.depends_on.count z)).sum := by
    intro l
    induction l with
    | nil => rfl
    | cons t rest ih =>
      simp only [List.map_cons, List.flatten_cons, List.count_append, ih,
        List.count_replicate]
      cases hbe : (t.step_id == x) with
      | true =>
        rw [List.filter_cons_of_pos (p := fun (u : PlanStep) => u.step_id == x) hbe]
        simp
      | false =>
        rw [List.filter_cons_of_neg (p := fun (u : PlanStep) => u.step_id == x)
          (by simp [hbe])]
        simp
  unfold buildGraph
  rw [haux steps (fun _ => [])]
  simp only [List.nil_append]
  rw [hcnt steps, filter_step_id_eq steps hN x]
  unfold depsOf
  cases hf : steps.find? (fun s => s.step_id == x) <;> simp

theorem kahnFold_spec (L : List String) (indeg : String → Int) (Q : List String)
    (z : String) :
    (L.foldl (fun (p : (String → Int) × List String) (nbr : String) =>
        let d := p.1 nbr - 1
        ((fun w => if w = nbr then d else p.1 w), if d = 0 then p.2 ++ [nbr] else p.2))
      (indeg, Q)).1 z = indeg z - (L.count z : Int)
    ∧ ((L.foldl (fun (p : (String → Int) × List String) (nbr : String) =>
        let d := p.1 nbr - 1
        ((fun w => if w = nbr then d else p.1 w), if d = 0 then p.2 ++ [nbr] else p.2))
      (indeg, Q)).2).count z
      = Q.count z
        + (if 1 ≤ indeg z ∧ indeg z ≤ (L.count z : Int) then 1 else 0) := by
  induction L generalizing indeg Q with
  | nil =>
    refine ⟨by simp, ?_⟩
    simp only [List.foldl_nil, List.count_nil, Nat.cast_zero]
    rw [if_neg (by omega)]
    omega
  | cons a L ih =>
    simp only [List.foldl_cons]
    have ih2 := ih (fun w => if w = a then indeg a - 1 else indeg w)
      (if indeg a - 1 = 0 then Q ++ [a] else Q)
    refine ⟨?_, ?_⟩
    · rw [ih2.1, List.count_cons]
      by_cases hz : z = a
      · subst hz
        rw [if_pos rfl, if_pos (by simp)]
        push_cast
        ring
      · rw [if_neg hz, if_neg (by simpa using fun h => hz h.symm)]
        push_cast
        ring
    · rw [ih2.2, List.count_cons]
      by_cases hz : z = a
      · subst hz
        simp only [if_pos (rfl : z = z),
          if_pos (show ((z == z) = true) by simp)]
        by_cases h1 : indeg z - 1 = 0
        · rw [if_pos h1, List.count_append, List.count_singleton,
            if_pos (show ((z == z) = true) by simp)]
          split_ifs <;> omega
        · rw [if_neg h1]
          split_ifs <;> omega
      · simp only [if_neg hz,
          if_neg (show ¬((a == z) = true) by simpa using fun h => hz h.symm)]
        by_cases h1 : indeg a - 1 = 0
        · rw [if_pos h1, List.count_append, List.count_singleton,
            if_neg (show ¬((a == z) = true) by simpa using fun h => hz h.symm)]
          split_ifs <;> omega
        · rw [if_neg h1]
          split_ifs <;> omega

theorem kahnStep_fst (graph : String → List String) (node : String)
    (indeg : String → Int) (Q : List String) (z : String) :
    (kahnStep graph node indeg Q).1 z = indeg z - ((graph node).count z : Int) :=
  (kahnFold_spec (graph node) indeg Q z).1

theorem kahnStep_snd_count (graph : String → List String) (node : String)
    (indeg : String → Int) (Q : List String) (z : String) :
    ((kahnStep graph node indeg Q).2).count z
      = Q.count z
        + (if 1 ≤ indeg z ∧ indeg z ≤ ((graph node).count z : Int) then 1 else 0) :=
  (kahnFold_spec (graph node) indeg Q z).2

theorem remDeg_append (steps : List PlanStep) (P : List String) (node x : String)
    (hnode : node ∉ P) :
    remDeg steps P x
      = remDeg steps (P ++ [node]) x + (depsOf steps x).count node := by
  unfold remDeg
  induction depsOf steps x with
  | nil => rfl
  | cons d l ih =>
    simp only [List.countP_cons, List.count_cons]
    by_cases hd : d = node
    · subst hd
      rw [if_pos (by simp [hnode]), if_neg (by simp), if_pos (by simp)]
      omega
    · by_cases hP : d ∈ P
      · rw [if_neg (by simp [hP]), if_neg (by simp [hP]),
          if_neg (by simpa using hd)]
        omega
      · rw [if_pos (by simp [hP]), if_pos (by simp [hP, hd]),
          if_neg (by simpa using hd)]
        omega

theorem remDeg_eq_zero_iff (steps : List PlanStep) (P : List String) (x : String) :
    remDeg steps P x = 0 ↔ ∀ d ∈ depsOf steps x, d ∈ P := by
  unfold remDeg
  rw [List.countP_eq_zero]
  constructor
  · intro h d hd
    have := h d hd
    simpa using this
  · intro h d hd
    simpa using h d hd

theorem count_le_remDeg (steps : List PlanStep) (P : List String) (x node : String)
    (hnode : node ∉ P) : (depsOf steps x).count node ≤ remDeg steps P x := by
  rw [remDeg_append steps P node x hnode]
  omega

/-- Loop invariant for Kahn's algorithm: `P` is the list of already
dequeued nodes in dequeue order, `Q` the pending queue. -/
structure KInv (steps : List PlanStep) (P Q : List String)
    (indeg : String → Int) (processed : Nat) : Prop where
  pSub : ∀ x ∈ P, x ∈ stepIds steps
  qSub : ∀ x ∈ Q, x ∈ stepIds steps
  pNodup : P.Nodup
  qNodup : Q.Nodup
  pqDisj : ∀ x ∈ P, x ∉ Q
  procEq : processed = P.length
  indegP : ∀ x ∈ P, indeg x = 0
  indegEq : ∀ x ∈ stepIds steps, x ∉ P → indeg x = (remDeg steps P x : Int)
  queueIff : ∀ x ∈ stepIds steps, x ∉ P → (x ∈ Q ↔ remDeg steps P x = 0)
  topo : ∀ (i : Nat) (h : i < P.length), ∀ d ∈ depsOf steps P[i], d ∈ P.take i

theorem kinv_init (steps : List PlanStep) (hN : (stepIds steps).Nodup) :
    KInv steps []
      ((stepIds steps).filter (fun x => buildIndeg steps x == 0))
      (buildIndeg steps) 0 := by
  have hrem : ∀ x, remDeg steps [] x = (depsOf steps x).length := by
    intro x
    unfold remDeg
    simp
  refine ⟨?_, ?_, ?_, ?_, ?_, rfl, ?_, ?_, ?_, ?_⟩
  · intro x hx; cases hx
  · intro x hx; exact (List.mem_filter.mp hx).1
  · exact List.nodup_nil
  · exact hN.filter _
  · intro x hx; cases hx
  · intro x hx; cases hx
  · intro x hx _
    rw [buildIndeg_apply steps hN x, hrem x]
  · intro x hx _
    rw [List.mem_filter, hrem x]
    constructor
    · intro h
      have h2 := h.2
      rw [beq_iff_eq, buildIndeg_apply steps hN x] at h2
      omega
    · intro h
      refine ⟨hx, ?_⟩
      rw [beq_iff_eq, buildIndeg_apply steps hN x, h]
      rfl
  · intro i h; cases h

theorem kinv_step (steps : List PlanStep) (hN : (stepIds steps).Nodup)
    {P Q : List String} {indeg : String → Int} {processed : Nat} (node : String)
    (h : KInv steps P (node :: Q) indeg processed) :
    KInv steps (P ++ [node])
      (kahnStep (buildGraph steps) node indeg Q).2
      (kahnStep (buildGraph steps) node indeg Q).1
      (processed + 1) := by
  have hnodeIds : node ∈ stepIds steps := h.qSub node (List.mem_cons_self node Q)
  have hnodeP : node ∉ P := fun hp => h.pqDisj node hp (List.mem_cons_self node Q)
  have hnodeQ : node ∉ Q := (List.nodup_cons.mp h.qNodup).1
  have hnodeRem : remDeg steps P node = 0 :=
    (h.queueIff node hnodeIds hnodeP).mp (List.mem_cons_self node Q)
  have hIndegNode : indeg node = 0 := by
    rw [h.indegEq node hnodeIds hnodeP, hnodeRem]
    rfl
  have hG : ∀ x, (((buildGraph steps) node).count x : Int)
      = ((depsOf steps x).count node : Int) := by
    intro x
    rw [count_buildGraph steps hN node x]
  have hcntP : ∀ x ∈ P, (depsOf steps x).count node = 0 := by
    intro x hx
    rw [List.count_eq_zero]
    intro hmem
    obtain ⟨i, hi, hgot⟩ := List.mem_iff_getElem.mp hx
    have htake := h.topo i hi node (by rw [hgot]; exact hmem)
    exact hnodeP (List.take_subset i P htake)
  have hcntNode : (depsOf steps node).count node = 0 := by
    have := count_le_remDeg steps P node node hnodeP
    omega
  refine ⟨?_, ?_, ?_, ?_, ?_, ?_, ?_, ?_, ?_, ?_⟩
  · intro x hx
    rcases List.mem_append.mp hx with h1 | h2
    · exact h.pSub x h1
    · rw [List.mem_singleton] at h2
      subst h2
      exact hnodeIds
  · intro x hx
    have hpos : 0 < ((kahnStep (buildGraph steps) node indeg Q).2).count x :=
      List.count_pos_iff.mpr hx
    rw [kahnStep_snd_count] at hpos
    by_cases hxQ : x ∈ Q
    · exact h.qSub x (List.mem_cons_of_mem node hxQ)
    · have hq0 : Q.count x = 0 := List.count_eq_zero.mpr hxQ
      rw [hq0] at hpos
      have hcond : 1 ≤ indeg x ∧ indeg x ≤ (((buildGraph steps) node).count x : Int) := by
        by_contra hc
        rw [if_neg hc] at hpos
        omega
      have hcnt : 0 < (depsOf steps x).count node := by
        have h2 := hcond.2
        rw [hG x] at h2
        have h1 := hcond.1
        omega
      have hne : depsOf steps x ≠ [] := by
        intro hnil
        rw [hnil] at hcnt
        simp at hcnt
      exact mem_stepIds_of_depsOf_ne steps x hne
  · rw [List.nodup_append]
    refine ⟨h.pNodup, List.nodup_singleton node, ?_⟩
    intro a ha hb
    rw [List.mem_singleton] at hb
    subst hb
    exact hnodeP ha
  · rw [List.nodup_iff_count_le_one]
    intro x
    rw [kahnStep_snd_count]
    have hQle : Q.count x ≤ 1 :=
      List.nodup_iff_count_le_one.mp (List.nodup_cons.mp h.qNodup).2 x
    by_cases hc : 1 ≤ indeg x ∧ indeg x ≤ (((buildGraph steps) node).count x : Int)
    · rw [if_pos hc]
      have hx0 : Q.count x = 0 := by
        rw [List.count_eq_zero]
        intro hxQ
        have hxIds : x ∈ stepIds steps := h.qSub x (List.mem_cons_of_mem node hxQ)
        have hxP : x ∉ P := fun hp => h.pqDisj x hp (List.mem_cons_of_mem node hxQ)
        have hr0 := (h.queueIff x hxIds hxP).mp (List.mem_cons_of_mem node hxQ)
        have h2 := h.indegEq x hxIds hxP
        rw [hr0] at h2
        have h1 := hc.1
        rw [h2] at h1
        norm_num at h1
      omega
    · rw [if_neg hc]
      omega
  · intro x hx hxQ'
    have hpos := List.count_pos_iff.mpr hxQ'
    rw [kahnStep_snd_count] at hpos
    rcases List.mem_append.mp hx with h1 | h2
    · have hi0 : indeg x = 0 := h.indegP x h1
      have hxQ : x ∉ Q := fun hq => h.pqDisj x h1 (List.mem_cons_of_mem node hq)
      have hq0 : Q.count x = 0 := List.count_eq_zero.mpr hxQ
      rw [hq0, hi0] at hpos
      norm_num at hpos
    · rw [List.mem_singleton] at h2
      rw [h2] at hpos
      have hq0 : Q.count node = 0 := List.count_eq_zero.mpr hnodeQ
      rw [hq0, hIndegNode] at hpos
      norm_num at hpos
  · rw [h.procEq, List.length_append, List.length_singleton]
  · intro x hx
    rw [kahnStep_fst, hG x]
    rcases List.mem_append.mp hx with h1 | h2
    · rw [h.indegP x h1, hcntP x h1]
      rfl
    · rw [List.mem_singleton] at h2
      subst h2
      rw [hIndegNode, hcntNode]
      rfl
  · intro x hxIds hxP'
    have hxP : x ∉ P := fun hp => hxP' (List.mem_append.mpr (Or.inl hp))
    rw [kahnStep_fst, hG x, h.indegEq x hxIds hxP,
      remDeg_append steps P node x hnodeP]
    push_cast
    ring
  · intro x hxIds hxP'
    have hxP : x ∉ P := fun hp => hxP' (List.mem_append.mpr (Or.inl hp))
    have hxNode : x ≠ node := by
      intro he
      exact hxP' (by
        rw [he]
        exact List.mem_append.mpr (Or.inr (List.mem_singleton.mpr rfl)))
    have hmemQ : x ∈ Q ↔ remDeg steps P x = 0 := by
      rw [← h.queueIff x hxIds hxP]
      constructor
      · exact List.mem_cons_of_mem node
      · intro hx
        rcases List.mem_cons.mp hx with h1 | h2
        · exact absurd h1 hxNode
        · exact h2
    have hmemNew : x ∈ (kahnStep (buildGraph steps) node indeg Q).2 ↔
        (x ∈ Q ∨ (1 ≤ indeg x ∧ indeg x ≤ (((buildGraph steps) node).count x : Int))) := by
      rw [← List.count_pos_iff, kahnStep_snd_count, ← List.count_pos_iff]
      by_cases hc : 1 ≤ indeg x ∧ indeg x ≤ (((buildGraph steps) node).count x : Int)
      · rw [if_pos hc]
        constructor
        · intro _
          exact Or.inr hc
        · intro _
          omega
      · rw [if_neg hc]
        constructor
        · intro h5
          exact Or.inl (by omega)
        · rintro (h5 | h5)
          · omega
          · exact absurd h5 hc
    rw [hmemNew, hmemQ, hG x, h.indegEq x hxIds hxP,
      remDeg_append steps P node x hnodeP]
    push_cast
    omega
  · intro i hi d hd
    have hi2 : i < P.length + 1 := by
      rw [List.length_append, List.length_singleton] at hi
      exact hi
    by_cases hilt : i < P.length
    · have hget : (P ++ [node])[i] = P[i] := List.getElem_append_left hilt
      rw [hget] at hd
      rw [List.take_append_of_le_length (le_of_lt hilt)]
      exact h.topo i hilt d hd
    · have hieq : i = P.length := by omega
      subst hieq
      have hget : (P ++ [node])[P.length] = node :=
        List.getElem_concat_length P node P.length rfl hi
      rw [hget] at hd
      rw [List.take_left]
      exact (remDeg_eq_zero_iff steps P node).mp hnodeRem d hd

theorem kahnLoop_sound (steps : List PlanStep) (hN : (stepIds steps).Nodup)
    (fuel : Nat) :
    ∀ (Q : List String) (indeg : String → Int) (processed : Nat) (P : List String),
      KInv steps P Q indeg processed →
      ∃ P' Q' indeg', KInv steps P' Q' indeg'
        (kahnLoop (buildGraph steps) fuel Q indeg processed) := by
  induction fuel with
  | zero =>
    intro Q indeg processed P h
    exact ⟨P, Q, indeg, h⟩
  | succ fuel ih =>
    intro Q indeg processed P h
    cases Q with
    | nil => exact ⟨P, [], indeg, h⟩
    | cons node Qt =>
      exact ih (kahnStep (buildGraph steps) node indeg Qt).2
        (kahnStep (buildGraph steps) node indeg Qt).1 (processed + 1)
        (P ++ [node]) (kinv_step steps hN node h)

theorem exists_source (steps : List PlanStep) (hN : (stepIds steps).Nodup)
    (hR : depsResolve steps = true) (hnc : noCycle steps) (P : List String)
    (m : String) (hm : m ∈ stepIds steps) (hmP : m ∉ P) :
    ∃ x ∈ stepIds steps, x ∉ P ∧ remDeg steps P x = 0 := by
  have hfin : {x : String | x ∈ stepIds steps ∧ x ∉ P}.Finite :=
    Set.Finite.subset (List.finite_toSet (stepIds steps)) (fun x hx => hx.1)
  haveI : Finite {x : String // x ∈ stepIds steps ∧ x ∉ P} := hfin.to_subtype
  let r : {x : String // x ∈ stepIds steps ∧ x ∉ P} →
      {x : String // x ∈ stepIds steps ∧ x ∉ P} → Prop :=
    fun a b => Relation.TransGen (depRel steps) a.1 b.1
  haveI : IsTrans _ r := ⟨fun _ _ _ hab hbc => hab.trans hbc⟩
  haveI : IsIrrefl _ r := ⟨fun a ha => hnc a.1 ha⟩
  have hwf : WellFounded r := Finite.wellFounded_of_trans_of_irrefl r
  obtain ⟨m0, _, hmin⟩ := hwf.has_min Set.univ ⟨⟨m, hm, hmP⟩, trivial⟩
  refine ⟨m0.1, m0.2.1, m0.2.2, ?_⟩
  rw [remDeg_eq_zero_iff]
  intro d hd
  by_contra hdP
  have hdIds : d ∈ stepIds steps := depsResolve_mem steps hR hd
  exact hmin ⟨d, hdIds, hdP⟩ trivial
    (Relation.TransGen.single ((depRel_iff steps hN d m0.1).mpr ⟨m0.2.1, hd⟩))

theorem kahnLoop_complete (steps : List PlanStep) (hN : (stepIds steps).Nodup)
    (hR : depsResolve steps = true) (hnc : noCycle steps) (fuel : Nat) :
    ∀ (Q : List String) (indeg : String → Int) (processed : Nat) (P : List String),
      KInv steps P Q indeg processed →
      steps.length ≤ fuel + P.length →
      kahnLoop (buildGraph steps) fuel Q indeg processed = steps.length := by
  have hlenIds : (stepIds steps).length = steps.length := by
    rw [stepIds, List.length_map]
  induction fuel with
  | zero =>
    intro Q indeg processed P h hlen
    have h1 : P.length ≤ (stepIds steps).length :=
      (List.subperm_of_subset h.pNodup (fun x hx => h.pSub x hx)).length_le
    have h2 := h.procEq
    show processed = steps.length
    omega
  | succ fuel ih =>
    intro Q indeg processed P h hlen
    cases Q with
    | nil =>
      have h1 : P.length ≤ (stepIds steps).length :=
        (List.subperm_of_subset h.pNodup (fun x hx => h.pSub x hx)).length_le
      have hPn : P.length = steps.length := by
        by_contra hne
        have hex : ∃ m ∈ stepIds steps, m ∉ P := by
          by_contra hall
          push_neg at hall
          have h3 : (stepIds steps).length ≤ P.length :=
            (List.subperm_of_subset hN (fun x hx => hall x hx)).length_le
          omega
        obtain ⟨m, hm, hmP⟩ := hex
        obtain ⟨x, hxIds, hxP, hxRem⟩ :=
          exists_source steps hN hR hnc P m hm hmP
        exact List.not_mem_nil x ((h.queueIff x hxIds hxP).mpr hxRem)
      have h2 := h.procEq
      show processed = steps.length
      omega
    | cons node Qt =>
      have h2 := kinv_step steps hN node h
      show kahnLoop (buildGraph steps) fuel
          (kahnStep (buildGraph steps) node indeg Qt).2
          (kahnStep (buildGraph steps) node indeg Qt).1 (processed + 1)
        = steps.length
      refine ih _ _ _ _ h2 ?_
      rw [List.length_append, List.length_singleton]
      omega

theorem indexOf_lt_of_mem_take {l : List String} {a : String} {i : Nat}
    (h : a ∈ l.take i) : List.indexOf a l < i := by
  induction l generalizing i with
  | nil => simp at h
  | cons b l ih =>
    cases i with
    | zero => simp at h
    | succ i =>
      rw [List.take_succ_cons] at h
      by_cases hab : a = b
      · subst hab
        rw [List.indexOf_cons_self]
        omega
      · rcases List.mem_cons.mp h with h1 | h2
        · exact absurd h1 hab
        · rw [List.indexOf_cons_ne _ (fun he => hab he.symm)]
          have := ih h2
          omega

theorem isDag_true_iff (steps : List PlanStep) (hN : (stepIds steps).Nodup)
    (hR : depsResolve steps = true) : isDag steps = true ↔ noCycle steps := by
  have hlenIds : (stepIds steps).length = steps.length := by
    rw [stepIds, List.length_map]
  constructor
  · intro hdag
    unfold isDag at hdag
    rw [beq_iff_eq] at hdag
    obtain ⟨P', Q', indeg', hfin⟩ :=
      kahnLoop_sound steps hN steps.length _ _ _ _ (kinv_init steps hN)
    rw [hdag] at hfin
    have hlenP : P'.length = steps.length := hfin.procEq.symm
    have hsp : P'.Subperm (stepIds steps) :=
      List.subperm_of_subset hfin.pNodup (fun x hx => hfin.pSub x hx)
    have hperm : P'.Perm (stepIds steps) := hsp.perm_of_length_le (by omega)
    have hids_sub : ∀ x ∈ stepIds steps, x ∈ P' :=
      fun x hx => hperm.mem_iff.mpr hx
    have hstep : ∀ a b, depRel steps a b →
        List.indexOf a P' < List.indexOf b P' := by
      intro a b hab
      have hiff := (depRel_iff steps hN a b).mp hab
      have hbIds : b ∈ stepIds steps := hiff.1
      have haDep : a ∈ depsOf steps b := hiff.2
      have haIds : a ∈ stepIds steps := depsResolve_mem steps hR haDep
      have hbP : b ∈ P' := hids_sub b hbIds
      have hib : List.indexOf b P' < P'.length := List.indexOf_lt_length.mpr hbP
      have hbeq : P'[List.indexOf b P'] = b := by
        have h5 := List.indexOf_get (a := b) (l := P') hib
        rw [List.get_eq_getElem] at h5
        exact h5
      have hmem : a ∈ P'.take (List.indexOf b P') := by
        refine hfin.topo (List.indexOf b P') hib a ?_
        rw [hbeq]
        exact haDep
      exact indexOf_lt_of_mem_take hmem
    intro x htg
    have hmono : ∀ a b, Relation.TransGen (depRel steps) a b →
        List.indexOf a P' < List.indexOf b P' := by
      intro a b htg'
      induction htg' with
      | single hr => exact hstep _ _ hr
      | tail _ hr ihr => exact lt_trans ihr (hstep _ _ hr)
    exact lt_irrefl _ (hmono x x htg)
  · intro hnc
    have hrun := kahnLoop_complete steps hN hR hnc steps.length _ _ _ _
      (kinv_init steps hN) (by omega)
    unfold isDag
    show (kahnLoop (buildGraph steps) steps.length
        ((stepIds steps).filter (fun x => buildIndeg steps x == 0))
        (buildIndeg steps) 0 == steps.length) = true
    rw [hrun]
    exact beq_self_eq_true _

/-- **C1.**  Every successfully constructed `Plan` has pairwise-distinct
step ids, dependency references that all resolve to step ids of the same
plan, and an acyclic `depends_on` relation; construction fails with an
error whenever one of these conditions is violated; and the source's
cycle check (`_is_dag`, Kahn's algorithm: in-degrees from `depends_on`
edges, repeated removal of zero-in-degree nodes, accept iff every step
is removed) accepts exactly the acyclic step lists. -/
theorem c1_plan_invariants (metadata : PlanMetadata) (steps : List PlanStep)
    (references : PlanReferences) :
    (∀ p, mkPlan metadata steps references = Except.ok p →
        (stepIds p.steps).Nodup ∧ depsResolve p.steps = true ∧ noCycle p.steps)
    ∧ (¬ ((stepIds steps).Nodup ∧ depsResolve steps = true ∧ noCycle steps) →
        ∃ e, mkPlan metadata steps references = Except.error e)
    ∧ ((stepIds steps).Nodup → depsResolve steps = true →
        (isDag steps = true ↔ noCycle steps)) := by
  refine ⟨?_, ?_, fun hN hR => isDag_true_iff steps hN hR⟩
  · intro p hp
    unfold mkPlan at hp
    split at hp
    · exact absurd hp (by simp)
    · split at hp
      · exact absurd hp (by simp)
      · split at hp
        · exact absurd hp (by simp)
        · split at hp
          · exact absurd hp (by simp)
          · split at hp
            · exact absurd hp (by simp)
            · next h1 h2 h3 h4 h5 =>
              have hps : p.steps = steps := by
                cases hp
                rfl
              rw [hps]
              have hN : (stepIds steps).Nodup := by simpa using h2
              have hR : depsResolve steps = true := by simpa using h3
              have hD : isDag steps = true := by simpa using h4
              exact ⟨hN, hR, (isDag_true_iff steps hN hR).mp hD⟩
  · intro hviol
    unfold mkPlan
    split
    · exact ⟨_, rfl⟩
    · split
      · exact ⟨_, rfl⟩
      · split
        · exact ⟨_, rfl⟩
        · split
          · exact ⟨_, rfl⟩
          · split
            · exact ⟨_, rfl⟩
            · next h1 h2 h3 h4 h5 =>
              exfalso
              have hN : (stepIds steps).Nodup := by simpa using h2
              have hR : depsResolve steps = true := by simpa using h3
              have hD : isDag steps = true := by simpa using h4
              exact hviol ⟨hN, hR, (isDag_true_iff steps hN hR).mp hD⟩

/-- Metadata for the C1 witness plans. -/
def c1md : PlanMetadata := { plan_id := "p1", intent_summary := "do" }

/-- Witness step with no dependencies. -/
def c1sA : PlanStep := { step_id := "a", step_type := .escalate }

/-- Witness step depending on `c1sA`. -/
def c1sB : PlanStep :=
  { step_id := "b", step_type := .escalate, depends_on := ["a"] }

/-- Witness step in a two-cycle with `c1sD`. -/
def c1sC : PlanStep :=
  { step_id := "c", step_type := .escalate, depends_on := ["d"] }

/-- Witness step in a two-cycle with `c1sC`. -/
def c1sD : PlanStep :=
  { step_id := "d", step_type := .escalate, depends_on := ["c"] }

/-- Witness for C1: the two-step chain plan validates and is provably
acyclic, and the two-step cyclic plan is rejected. -/
theorem c1_plan_invariants_witness :
    ((stepIds [c1sA, c1sB]).Nodup ∧ depsResolve [c1sA, c1sB] = true
      ∧ noCycle [c1sA, c1sB])
    ∧ (∃ e, mkPlan c1md [c1sC, c1sD] ⟨[], []⟩ = Except.error e) := by
  constructor
  · obtain ⟨p, hp⟩ : ∃ p, mkPlan c1md [c1sA, c1sB] ⟨[], []⟩ = Except.ok p :=
      ⟨_, rfl⟩
    have h := (c1_plan_invariants c1md [c1sA, c1sB] ⟨[], []⟩).1 p hp
    have hps : p.steps = [c1sA, c1sB] := by
      have h2 : (Except.ok (⟨c1md, [c1sA, c1sB], ⟨[], []⟩⟩ : Plan)
          : Except String Plan) = Except.ok p := by
        rw [← hp]
        rfl
      cases h2
      rfl
    rwa [hps] at h
  · exact (c1_plan_invariants c1md [c1sC, c1sD] ⟨[], []⟩).2.1
      (fun hc => absurd
        (((c1_plan_invariants c1md [c1sC, c1sD] ⟨[], []⟩).2.2
          (by decide) (by decide)).mpr hc.2.2)
        (by decide))
